import Mathlib

set_option autoImplicit false

/-!
Verification of the Amass data-source layer (datasrcs/umbrella.go and
datasrcs/networksdb.go) via a shallow embedding in Lean.

Network transport, JSON decoding and regular-expression matching are external
collaborators of the code under study; they are modelled as oracle functions
that yield the already-decoded response shapes the Go code extracts from them.
All control flow, field assignment, set/slice manipulation, rate-limit charges
and cache/event side effects of the Go functions are translated directly.
IP addresses are modelled as IPv4 values (natural numbers below 2^32), which
is the width the cited code paths exercise.
-/

namespace Amass

/-! ### IPv4 addresses and CIDR blocks (net.ParseIP / net.ParseCIDR / Contains) -/

/-- Split a character list on a separator (the uses of strings.Split /
String.splitOn in the parsers, made structurally recursive). -/
def splitOnChar (sep : Char) : List Char → List (List Char)
  | [] => [[]]
  | c :: rest =>
    if c = sep then [] :: splitOnChar sep rest
    else
      match splitOnChar sep rest with
      | [] => [[c]]
      | g :: gs => (c :: g) :: gs

/-- Go strings.TrimSpace: drop leading and trailing whitespace. -/
def goTrim (s : String) : String :=
  String.mk (((s.toList.dropWhile Char.isWhitespace).reverse.dropWhile
    Char.isWhitespace).reverse)

/-- One decimal field of a dotted quad, as Go's ParseIP accepts it:
digits only, non-empty, and no leading zero (Go ≥ 1.17 rejects them). -/
def parseDecField : List Char → Option Nat
  | [] => none
  | c :: cs =>
    if c = '0' && !cs.isEmpty then none
    else
      (c :: cs).foldl
        (fun acc ch => acc.bind fun a =>
          if ch.isDigit then some (a * 10 + (ch.toNat - 48)) else none)
        (some 0)

/-- Go net.ParseIP restricted to IPv4 dotted-quad form; result is the
32-bit value of the address. -/
def parseIPv4 (s : String) : Option Nat :=
  match splitOnChar '.' s.toList with
  | [a, b, c, d] => do
    let a ← parseDecField a
    if a ≤ 255 then pure () else none
    let b ← parseDecField b
    if b ≤ 255 then pure () else none
    let c ← parseDecField c
    if c ≤ 255 then pure () else none
    let d ← parseDecField d
    if d ≤ 255 then pure () else none
    pure (((a * 256 + b) * 256 + c) * 256 + d)
  | _ => none

/-- A parsed CIDR: Go's net.ParseCIDR returns both the address as written
(`ip`, unmasked) and the IPNet, which stores the masked network address
(`network`) and the prefix length (`len`). -/
structure CIDR where
  ip : Nat
  network : Nat
  len : Nat
  deriving Repr, DecidableEq

/-- Go net.ParseCIDR for IPv4: "a.b.c.d/n" with 0 ≤ n ≤ 32; the network
address is the given address with the host bits cleared. -/
def parseCIDR (s : String) : Option CIDR :=
  match splitOnChar '/' s.toList with
  | [ipCs, lenCs] => do
    let ip ← parseIPv4 (String.mk ipCs)
    let len ← parseDecField lenCs
    if len ≤ 32 then pure () else none
    pure ⟨ip, ip / 2 ^ (32 - len) * 2 ^ (32 - len), len⟩
  | _ => none

/-- Go (*net.IPNet).Contains: mask the candidate address with the prefix mask
and compare with the stored (already masked) network address. -/
def cidrContains (c : CIDR) (ip : Nat) : Bool :=
  ip / 2 ^ (32 - c.len) * 2 ^ (32 - c.len) == c.network

/-- Contains applied to the result of a possibly failed net.ParseIP:
a nil IP is contained in nothing. -/
def cidrContainsOpt (c : CIDR) : Option Nat → Bool
  | some ip => cidrContains c ip
  | none => false

/-- The netblock-iteration pattern shared by executeASNQuery (networksdb.go
lines 207-217) and executeAPIASNQuery (lines 300-309): walk the slice in
order and pick the first entry that parses as a CIDR and contains the
address; entries that fail to parse are skipped. -/
def findContainingCIDR (netblocks : List String) (ip : Option Nat) : Option String :=
  netblocks.find? (fun cidr =>
    match parseCIDR cidr with
    | some c => cidrContainsOpt c ip
    | none => false)

/-- First and last address of a CIDR block (amassnet.FirstLast). -/
def cidrFirstLast (c : CIDR) : Nat × Nat :=
  (c.network, c.network + 2 ^ (32 - c.len) - 1)

/-- Render a 32-bit value as a dotted quad ((net.IP).String for IPv4). -/
def ipv4ToString (ip : Nat) : String :=
  toString (ip / 2 ^ 24 % 256) ++ "." ++ toString (ip / 2 ^ 16 % 256) ++ "." ++
    toString (ip / 2 ^ 8 % 256) ++ "." ++ toString (ip % 256)

/-! #### Arithmetic facts about masking -/

theorem mask_le_self (ip k : Nat) : ip / k * k ≤ ip :=
  Nat.div_mul_le_self ip k

theorem lt_mask_add (ip k : Nat) (hk : 0 < k) : ip < ip / k * k + k := by
  have h1 : ip / k * k + ip % k = ip := Nat.div_add_mod' ip k
  have h2 : ip % k < k := Nat.mod_lt ip hk
  calc ip = ip / k * k + ip % k := h1.symm
    _ < ip / k * k + k := Nat.add_lt_add_left h2 _

theorem mask_eq_iff (ip q k : Nat) (hk : 0 < k) :
    ip / k * k = q * k ↔ q * k ≤ ip ∧ ip < q * k + k := by
  constructor
  · intro h
    refine ⟨h ▸ mask_le_self ip k, h ▸ lt_mask_add ip k hk⟩
  · rintro ⟨h₁, h₂⟩
    have : ip / k = q := by
      apply Nat.div_eq_of_lt_le
      · exact h₁
      · calc ip < q * k + k := h₂
          _ = (q + 1) * k := by ring
    rw [this]

/-- A parsed CIDR's network address is aligned: it is a multiple of the
block size. -/
theorem parseCIDR_network_aligned (s : String) (c : CIDR) (h : parseCIDR s = some c) :
    ∃ q, c.network = q * 2 ^ (32 - c.len) := by
  unfold parseCIDR at h
  cases hsplit : splitOnChar '/' s.toList with
  | nil => rw [hsplit] at h; simp at h
  | cons a t =>
    cases t with
    | nil => rw [hsplit] at h; simp at h
    | cons b t2 =>
      cases t2 with
      | nil =>
        rw [hsplit] at h
        simp only [Option.bind_eq_bind, Option.bind_eq_some, bind, pure] at h
        obtain ⟨ip, hip, rest⟩ := h
        obtain ⟨len, hlen, rest2⟩ := rest
        by_cases hle : len ≤ 32
        · simp [hle] at rest2
          exact ⟨ip / 2 ^ (32 - len), by rw [← rest2]⟩
        · simp [hle] at rest2
      | cons c3 t3 => rw [hsplit] at h; simp at h

/-! ### Shared model pieces: stringset, effects, request records -/

/-- caffix/stringset insertion: a set with no duplicates; modelled as a
duplicate-free list in insertion order. -/
def insertStr (l : List String) (s : String) : List String :=
  if s ∈ l then l else l ++ [s]

theorem insertStr_nodup (l : List String) (s : String) (h : l.Nodup) :
    (insertStr l s).Nodup := by
  unfold insertStr
  split
  · exact h
  · next hn => simpa using List.Nodup.append h (List.nodup_singleton s) (by simpa using hn)

theorem insertStr_mem (l : List String) (s x : String) (h : x ∈ insertStr l s) :
    x ∈ l ∨ x = s := by
  unfold insertStr at h
  split at h
  · exact Or.inl h
  · rcases List.mem_append.mp h with h1 | h1
    · exact Or.inl h1
    · exact Or.inr (by simpa using h1)

theorem insertStr_mem_self (l : List String) (s : String) : s ∈ insertStr l s := by
  unfold insertStr
  split
  · assumption
  · simp

theorem insertStr_mem_of_mem (l : List String) (s x : String) (h : x ∈ l) :
    x ∈ insertStr l s := by
  unfold insertStr
  split
  · exact h
  · exact List.mem_append.mpr (Or.inl h)

/-- The model of requests.ASNRequest, restricted to the fields the cited code
reads or writes. Go's `Prefix` field is rendered `pfx` (`prefix` is a Lean
keyword); `AllocationDate` is not carried since no claim reads its value. -/
structure ASNRequest where
  address : String := ""
  asn : Int := 0
  pfx : String := ""
  cc : String := ""
  registry : String := ""
  description : String := ""
  netblocks : List String := []
  tag : String := ""
  source : String := ""
  deriving Repr, DecidableEq

/-- Which of the two mutually recursive Umbrella resolution functions is being
entered; used to instrument the traces for the cycle-avoidance claim. -/
inductive FuncTag
  | addrQ
  | asnQ
  deriving Repr, DecidableEq

/-- Observable side effects of one request's processing, in order. -/
inductive Effect
  | netCall (url : String)
  | rateCheck
  | cacheUpdate (req : ASNRequest)
  | emitWhois (domain : String) (newDomains : List String) (tag source : String)
  | enter (f : FuncTag)
  deriving Repr, DecidableEq

def countNetCalls (tr : List Effect) : Nat :=
  tr.countP fun e => match e with | .netCall _ => true | _ => false

def countRateChecks (tr : List Effect) : Nat :=
  tr.countP fun e => match e with | .rateCheck => true | _ => false

def countEnter (f : FuncTag) (tr : List Effect) : Nat :=
  tr.countP fun e => match e with | .enter g => g == f | _ => false

def countEmits (tr : List Effect) : Nat :=
  tr.countP fun e => match e with | .emitWhois _ _ _ _ => true | _ => false

/-- The URLs of the outbound calls of a run, in order. -/
def netCallURLs (tr : List Effect) : List String :=
  tr.filterMap fun e => match e with | .netCall u => some u | _ => none

/-- The ASNFact values handed to the shared cache during a run, in order. -/
def cacheUpdates (tr : List Effect) : List ASNRequest :=
  tr.filterMap fun e => match e with | .cacheUpdate r => some r | _ => none

theorem countNetCalls_append (a b : List Effect) :
    countNetCalls (a ++ b) = countNetCalls a + countNetCalls b :=
  List.countP_append _ _ _

theorem countRateChecks_append (a b : List Effect) :
    countRateChecks (a ++ b) = countRateChecks a + countRateChecks b :=
  List.countP_append _ _ _

theorem countEnter_append (f : FuncTag) (a b : List Effect) :
    countEnter f (a ++ b) = countEnter f a + countEnter f b :=
  List.countP_append _ _ _

theorem countEmits_append (a b : List Effect) :
    countEmits (a ++ b) = countEmits a + countEmits b :=
  List.countP_append _ _ _

@[simp] theorem cacheUpdates_append (a b : List Effect) :
    cacheUpdates (a ++ b) = cacheUpdates a ++ cacheUpdates b :=
  List.filterMap_append _ _ _

@[simp] theorem cacheUpdates_nil : cacheUpdates [] = [] := rfl

@[simp] theorem cacheUpdates_cons_netCall (u : String) (tr : List Effect) :
    cacheUpdates (Effect.netCall u :: tr) = cacheUpdates tr := rfl

@[simp] theorem cacheUpdates_cons_rateCheck (tr : List Effect) :
    cacheUpdates (Effect.rateCheck :: tr) = cacheUpdates tr := rfl

@[simp] theorem cacheUpdates_cons_enter (g : FuncTag) (tr : List Effect) :
    cacheUpdates (Effect.enter g :: tr) = cacheUpdates tr := rfl

@[simp] theorem cacheUpdates_cons_emit (d : String) (nd : List String) (t s : String)
    (tr : List Effect) :
    cacheUpdates (Effect.emitWhois d nd t s :: tr) = cacheUpdates tr := rfl

@[simp] theorem cacheUpdates_cons_update (r : ASNRequest) (tr : List Effect) :
    cacheUpdates (Effect.cacheUpdate r :: tr) = r :: cacheUpdates tr := rfl

namespace Umbrella

/-- One entry of Umbrella's as_for_ip.json array, as unmarshalled in
executeASNAddrQuery; `dateOK` abstracts whether
time.Parse("2006-01-02", creation_date) succeeds (no claim reads the value). -/
structure ASRecord where
  dateOK : Bool
  registry : Int
  description : String
  asn : Int
  cidr : String
  deriving Repr, DecidableEq

/-- One entry of Umbrella's prefixes_for_asn.json array. -/
structure NetblockRecord where
  cidr : String
  countryName : String
  countryCode : String
  deriving Repr, DecidableEq

/-- One value of Umbrella's reverse-WHOIS response map. -/
structure RWhoisDomain where
  domain : String
  current : Bool
  deriving Repr, DecidableEq

structure RWhoisResponse where
  totalResults : Int
  moreData : Bool
  domains : List RWhoisDomain
  deriving Repr, DecidableEq

/-- The WHOIS record fields Umbrella's whoisRecord struct unmarshals. -/
structure WhoisRecord where
  nameServers : List String
  adminContactEmail : String
  billingContactEmail : String
  registrantEmail : String
  techContactEmail : String
  zoneContactEmail : String
  deriving Repr, DecidableEq

/-- The provider, as seen through http.RequestWebPage followed by
json.Unmarshal: `.error` covers both transport failures and responses that
fail to unmarshal; `.ok` yields the decoded shape. The reverse-WHOIS endpoint
is keyed by the request URL and the page offset. -/
structure Oracle where
  addrToASN : String → Except Unit (List ASRecord)
  asnToCIDRs : Int → Except Unit (List NetblockRecord)
  reverseWhois : String → Nat → Except Unit (List (String × RWhoisResponse))
  whois : String → Except Unit WhoisRecord

def restAddrToASNURL (addr : String) : String :=
  "https://investigate.api.umbrella.com/bgp_routes/ip/" ++ addr ++ "/as_for_ip.json"

def restASNToCIDRsURL (asn : Int) : String :=
  "https://investigate.api.umbrella.com/bgp_routes/asn/" ++ toString asn ++
    "/prefixes_for_asn.json"

def whoisBaseURL : String := "https://investigate.api.umbrella.com/whois/"

def whoisRecordURL (domain : String) : String := whoisBaseURL ++ domain

def reverseWhoisByNSURL (ns : List String) : String :=
  whoisBaseURL ++ "nameservers?nameServerList=" ++ String.intercalate "," ns

def reverseWhoisByEmailURL (emails : List String) : String :=
  whoisBaseURL ++ "emails?emailList=" ++ String.intercalate "," emails

/-- The registry-index switch in executeASNAddrQuery (umbrella.go 202-216). -/
def registryName (ir : Int) : String :=
  if ir = 1 then "AfriNIC"
  else if ir = 2 then "APNIC"
  else if ir = 3 then "ARIN"
  else if ir = 4 then "LACNIC"
  else if ir = 5 then "RIPE NCC"
  else "N/A"

/-- The fold over netblock entries in executeASNQuery (umbrella.go 255-260):
append the trimmed CIDR and, when the raw CIDR equals the known Prefix,
overwrite the country code. -/
def applyNetblock (r : ASNRequest) (nb : NetblockRecord) : ASNRequest :=
  let r := { r with netblocks := r.netblocks ++ [goTrim nb.cidr] }
  if nb.cidr == r.pfx then { r with cc := nb.countryCode } else r

mutual

/-- umbrella.go executeASNAddrQuery (lines 177-233), instrumented with an
entry marker and run on explicit request state; the `none` result means the
fuel bound was hit (the Go code has no such bound — the termination theorem
shows fuel 3 always suffices). -/
def executeASNAddrQuery : Nat → Oracle → ASNRequest → Option (List Effect × ASNRequest)
  | 0, _, _ => none
  | fuel + 1, o, req =>
    let tr := [Effect.enter .addrQ, Effect.netCall (restAddrToASNURL req.address)]
    match o.addrToASN req.address with
    | .error _ => some (tr, req)
    | .ok [] => some (tr, req)
    | .ok (a :: _) =>
      if !a.dateOK then some (tr, req)
      else
        let req := { req with
          asn := a.asn, pfx := a.cidr, registry := registryName a.registry,
          description := a.description, tag := "api", source := "Umbrella" }
        if req.netblocks.isEmpty then
          let req := { req with netblocks := [goTrim req.pfx] }
          match executeASNQuery fuel o req with
          | none => none
          | some (tr2, req2) =>
            some (tr ++ [Effect.rateCheck] ++ tr2 ++ [Effect.cacheUpdate req2], req2)
        else
          some (tr ++ [Effect.cacheUpdate req], req)

/-- umbrella.go executeASNQuery (lines 235-281), instrumented the same way. -/
def executeASNQuery : Nat → Oracle → ASNRequest → Option (List Effect × ASNRequest)
  | 0, _, _ => none
  | fuel + 1, o, req =>
    let tr := [Effect.enter .asnQ, Effect.netCall (restASNToCIDRsURL req.asn)]
    match o.asnToCIDRs req.asn with
    | .error _ => some (tr, req)
    | .ok [] => some (tr, req)
    | .ok (nb0 :: rest) =>
      let req := (nb0 :: rest).foldl applyNetblock req
      if req.pfx == "" then
        match parseCIDR nb0.cidr with
        | some c =>
          let req := { req with address := ipv4ToString c.ip, cc := nb0.countryCode }
          match executeASNAddrQuery fuel o req with
          | none => none
          | some (tr2, req2) => some (tr ++ [Effect.rateCheck] ++ tr2, req2)
        | none =>
          match (nb0 :: rest).find? (fun nb => nb.cidr == req.pfx) with
          | some nb => some (tr, { req with cc := nb.countryCode })
          | none => some (tr, req)
      else
        match (nb0 :: rest).find? (fun nb => nb.cidr == req.pfx) with
        | some nb => some (tr, { req with cc := nb.countryCode })
        | none => some (tr, req)

end

/-- umbrella.go asnRequest (lines 163-175): the credential gate, the
empty-request gate, and the choice of entry point. -/
def asnRequest (fuel : Nat) (hasKey : Bool) (o : Oracle) (req : ASNRequest) :
    Option (List Effect × ASNRequest) :=
  if !hasKey then some ([], req)
  else if req.address == "" && req.asn == 0 then some ([], req)
  else if req.address != "" then executeASNAddrQuery fuel o req
  else executeASNQuery fuel o req

/-- json.Unmarshal of a page into the loop's existing `whois` map
(umbrella.go line 366): the map is declared outside the loop, so entries from
earlier pages persist and entries with matching keys are overwritten. -/
def mergeResponses (old new : List (String × RWhoisResponse)) :
    List (String × RWhoisResponse) :=
  old.filter (fun p => !(new.any (fun q => q.1 == p.1))) ++ new

/-- The per-iteration collection pass of queryReverseWhois (lines 373-384):
current domains of entries with positive totalResults enter the set. -/
def collectCurrent (whois : List (String × RWhoisResponse)) (ds : List String) :
    List String :=
  whois.foldl (fun ds p =>
    if p.2.totalResults > 0 then
      p.2.domains.foldl (fun ds d => if d.current then insertStr ds d.domain else ds) ds
    else ds) ds

/-- umbrella.go queryReverseWhois (lines 350-387): paginate at offsets
0, 500, 1000, … while any entry of the accumulated response map reports
moreDataAvailable, charging one rate-limit check per fetched page. The Go
loop is unbounded; `none` means the fuel ran out before the loop exited. -/
def queryReverseWhoisAux (o : Oracle) (apiURL : String) :
    Nat → Nat → List (String × RWhoisResponse) → List String →
      Option (List Effect × List String)
  | 0, _, _, _ => none
  | fuel + 1, count, whois, domains =>
    let tr := [Effect.rateCheck,
               Effect.netCall (apiURL ++ "&offset=" ++ toString count)]
    match o.reverseWhois apiURL count with
    | .error _ => some (tr, domains)
    | .ok page =>
      let whois := mergeResponses whois page
      let domains := collectCurrent whois domains
      let more := whois.any (fun p => p.2.moreData)
      if more then
        match queryReverseWhoisAux o apiURL fuel (count + 500) whois domains with
        | none => none
        | some (tr2, ds) => some (tr ++ tr2, ds)
      else
        some (tr, domains)

def queryReverseWhois (fuel : Nat) (o : Oracle) (apiURL : String) :
    Option (List Effect × List String) :=
  queryReverseWhoisAux o apiURL fuel 0 [] []

/-- umbrella.go validateScope (lines 389-394). -/
def validateScope (inScope : String → Bool) (input : String) : Bool :=
  input != "" && inScope input

/-- umbrella.go collateEmails (lines 308-328): the five contact fields are
screened by validateScope and inserted into a set in order. -/
def collateEmails (inScope : String → Bool) (record : WhoisRecord) : List String :=
  let step := fun (l : List String) (e : String) =>
    if validateScope inScope e then insertStr l e else l
  [record.adminContactEmail, record.billingContactEmail, record.registrantEmail,
    record.techContactEmail, record.zoneContactEmail].foldl step []

/-- umbrella.go queryWhois (lines 330-348): one rate-limit charge, one fetch,
nil on transport or unmarshal failure. -/
def queryWhois (o : Oracle) (domain : String) :
    List Effect × Option WhoisRecord :=
  let tr := [Effect.rateCheck, Effect.netCall (whoisRecordURL domain)]
  match o.whois domain with
  | .error _ => (tr, none)
  | .ok w => (tr, some w)

/-- umbrella.go whoisRequest (lines 396-445).  Returns the trace and the
final `domains` set (the slice the emitted event carries when non-empty);
`none` means a reverse-WHOIS pagination loop exceeded the fuel. -/
def whoisRequest (fuel : Nat) (hasKey : Bool) (inScope : String → Bool)
    (o : Oracle) (domain : String) : Option (List Effect × List String) :=
  if !hasKey then some ([], [])
  else if !(inScope domain) then some ([], [])
  else
    let w := queryWhois o domain
    let tr0 := w.1
    match w.2 with
    | none => some (tr0, [])
    | some record =>
      let emails := collateEmails inScope record
      let step1 : Option (List Effect × List String) :=
        if emails.length > 0 then
          match queryReverseWhois fuel o (reverseWhoisByEmailURL emails) with
          | none => none
          | some (tr1, ds) =>
            some (tr1, ds.foldl (fun acc d => if !(inScope d) then insertStr acc d else acc) [])
        else some ([], [])
      match step1 with
      | none => none
      | some (tr1, domains1) =>
        let nameservers := record.nameServers.filter (validateScope inScope)
        let step2 : Option (List Effect × List String) :=
          if nameservers.length > 0 then
            match queryReverseWhois fuel o (reverseWhoisByNSURL nameservers) with
            | none => none
            | some (tr2, ds) =>
              some (tr2, ds.foldl (fun acc d => if !(inScope d) then insertStr acc d else acc) domains1)
          else some ([], domains1)
        match step2 with
        | none => none
        | some (tr2, domains) =>
          if domains.length > 0 then
            some (tr0 ++ tr1 ++ tr2 ++
              [Effect.emitWhois domain domains "api" "Umbrella"], domains)
          else
            some (tr0 ++ tr1 ++ tr2, domains)

end Umbrella

/-! ### NetworksDB (datasrcs/networksdb.go) -/

/-- Result of running Go code that can panic: either the normal value or an
unrecovered runtime panic that kills the goroutine. -/
inductive Outcome (α : Type)
  | ok (val : α)
  | panicked
  deriving Repr, DecidableEq

/-- Go strconv.Atoi: optional sign followed by at least one digit. -/
def goAtoi (s : String) : Option Int :=
  let digitsToNat : List Char → Option Nat := fun l =>
    if l.isEmpty then none
    else l.foldl
      (fun acc ch => acc.bind fun a =>
        if ch.isDigit then some (a * 10 + (ch.toNat - 48)) else none)
      (some 0)
  match s.toList with
  | '-' :: rest => (digitsToNat rest).map (fun n => -(n : Int))
  | '+' :: rest => (digitsToNat rest).map (fun n => (n : Int))
  | l => (digitsToNat l).map (fun n => (n : Int))

/-- Index of the first occurrence of `pat` in `text` (regexp FindStringIndex
for the literal patterns used by networksdb.go). -/
def findSubstrIdx (pat : List Char) : List Char → Option Nat
  | [] => if pat.isEmpty then some 0 else none
  | c :: rest =>
    if pat.isPrefixOf (c :: rest) then some 0
    else (findSubstrIdx pat rest).map (fun i => i + 1)

/-- Go slice expression s[a:b]: panics unless 0 ≤ a ≤ b ≤ len(s). -/
def goSlice (s : List Char) (a b : Nat) : Outcome (List Char) :=
  if a ≤ b && b ≤ s.length then .ok ((s.drop a).take (b - a)) else .panicked

namespace NetworksDB

/-- Modelled from the spec: the helper numRateLimitChecks lives in the
datasrcs package outside src/ (only its call sites are present); per its name
and the spec's rule that every rate-limit charge is explicit at the call
site, it performs the given number of rate-limit checks. -/
def numRateLimitChecks (num : Nat) : List Effect :=
  List.replicate num Effect.rateCheck

def baseURL : String := "https://networksdb.io"

def apiPath : String := "/api/v1"

def getIPURL (addr : String) : String := baseURL ++ "/ip/" ++ addr

def getASNURL (asn : Int) : String := baseURL ++ "/autonomous-system/AS" ++ toString asn

def getAPIIPURL : String := baseURL ++ apiPath ++ "/ip/info"

def getAPIOrgInfoURL : String := baseURL ++ apiPath ++ "/org/info"

def getAPIASNInfoURL : String := baseURL ++ apiPath ++ "/as/info"

def getAPINetblocksURL : String := baseURL ++ apiPath ++ "/as/networks"

def getDomainToIPURL (domain : String) : String := baseURL ++ "/domain-to-ips/" ++ domain

def getDomainsInNetworkURL (first last : String) : String :=
  baseURL ++ "/domains-in-network/" ++ first ++ "/" ++ last

/-- The regular-expression view of one fetched HTML page: the submatches the
networksdb regexes extract (asnLinkHref: ASNLinkRE; cidrMatches: CIDRRE,
all occurrences; asnText: ASNRE; asName: ASNameRE; countryCode: CCRE).
`none`/`[]` model a failed match. -/
structure ScrapePage where
  asnLinkHref : Option String := none
  cidrMatches : List String := []
  asnText : Option String := none
  asName : Option String := none
  countryCode : Option String := none
  deriving Repr

structure IPResult where
  orgID : String
  cidr : String
  deriving Repr, DecidableEq

structure IPResp where
  error : String
  total : Int
  results : List IPResult
  deriving Repr, DecidableEq

structure OrgResult where
  asns : List Int
  deriving Repr, DecidableEq

structure OrgResp where
  error : String
  total : Int
  results : List OrgResult
  deriving Repr, DecidableEq

structure ASInfoResult where
  asn : Int
  asName : String
  description : String
  countryCode : String
  country : String
  deriving Repr, DecidableEq

structure ASInfoResp where
  error : String
  total : Int
  results : List ASInfoResult
  deriving Repr, DecidableEq

structure NetblockResult where
  cidr : String
  deriving Repr, DecidableEq

structure NetblocksResp where
  error : String
  total : Int
  results : List NetblockResult
  deriving Repr, DecidableEq

/-- The provider as seen through transport plus decoding. `.error` covers
transport failures (and, for `page`-typed endpoints, nothing else: regex
match failure is a field of the decoded view). API endpoints are keyed by
the request parameter carried in the POST body. `harvest` is
dns.AnySubdomainRegex().FindAllString applied to a region of text. -/
structure Oracle where
  page : String → Except Unit ScrapePage
  apiIP : String → Except Unit IPResp
  apiOrg : String → Except Unit OrgResp
  apiASNInfo : Int → Except Unit ASInfoResp
  apiNetblocks : Int → Except Unit NetblocksResp
  ipLinks : String → Except Unit (List String)
  ipPageCIDR : String → Except Unit (Option String)
  domainsPage : String → Except Unit String
  harvest : String → List String

/-- The prefix selection of networksdb.go executeASNQuery (lines 207-220):
the first netblock that parses and contains the parsed address; failing
that, the first netblock of the (non-empty) set. -/
def selectPrefix (netblocks : List String) (addr : String) : String :=
  let pfx :=
    if addr != "" then
      match findContainingCIDR netblocks (parseIPv4 addr) with
      | some c => c
      | none => ""
    else ""
  if pfx == "" && netblocks.length > 0 then netblocks.headD "" else pfx

/-- networksdb.go executeASNQuery (lines 178-232), the scrape path. -/
def executeASNQuery (o : Oracle) (tag : String) (asn : Int) (addr : String)
    (netblocks : List String) : List Effect × Outcome Unit :=
  let tr := numRateLimitChecks 3 ++ [Effect.netCall (getASNURL asn)]
  match o.page (getASNURL asn) with
  | .error _ => (tr, .ok ())
  | .ok pg =>
    match pg.asName with
    | none => (tr, .ok ())
    | some nameRaw =>
      let name := goTrim nameRaw
      match pg.countryCode with
      | none => (tr, .ok ())
      | some ccRaw =>
        let cc := goTrim ccRaw
        let netblocks := pg.cidrMatches.foldl (fun s m => insertStr s (goTrim m)) netblocks
        let pfx := selectPrefix netblocks addr
        let fact : ASNRequest :=
          { address := addr, asn := asn, pfx := pfx, cc := cc,
            description := name ++ ", " ++ cc, netblocks := netblocks,
            tag := tag, source := "NetworksDB" }
        (tr ++ [Effect.cacheUpdate fact], .ok ())

/-- networksdb.go executeASNAddrQuery (lines 128-172), the scrape path. -/
def executeASNAddrQuery (o : Oracle) (tag : String) (addr : String) :
    List Effect × Outcome Unit :=
  let tr := [Effect.netCall (getIPURL addr)]
  match o.page (getIPURL addr) with
  | .error _ => (tr, .ok ())
  | .ok pg =>
    match pg.asnLinkHref with
    | none => (tr, .ok ())
    | some href =>
      let u2 := baseURL ++ href
      let tr := tr ++ numRateLimitChecks 3 ++ [Effect.netCall u2]
      match o.page u2 with
      | .error _ => (tr, .ok ())
      | .ok pg2 =>
        let netblocks := pg2.cidrMatches.foldl (fun s m => insertStr s (goTrim m)) []
        match pg2.asnText with
        | none => (tr, .ok ())
        | some t =>
          match goAtoi (goTrim t) with
          | none => (tr, .ok ())
          | some asn =>
            let r := executeASNQuery o tag asn addr netblocks
            (tr ++ r.1, r.2)

/-- networksdb.go apiIPQuery (lines 329-364): yields (CIDR, organisation id),
("","") on any failure. -/
def apiIPQuery (o : Oracle) (addr : String) : List Effect × String × String :=
  let tr := numRateLimitChecks 3 ++ [Effect.netCall getAPIIPURL]
  match o.apiIP addr with
  | .error _ => (tr, "", "")
  | .ok m =>
    if m.error != "" then (tr, "", "")
    else
      match m.results with
      | [] => (tr, "", "")
      | r :: _ => if m.total == 0 then (tr, "", "") else (tr, r.cidr, r.orgID)

/-- networksdb.go apiOrgInfoQuery (lines 370-400). The zero-results guard
indexes m.Results[0] after only checking m.Total, so a response with a
non-zero total and an empty results array panics. -/
def apiOrgInfoQuery (o : Oracle) (id : String) : List Effect × Outcome (List Int) :=
  let tr := numRateLimitChecks 3 ++ [Effect.netCall getAPIOrgInfoURL]
  match o.apiOrg id with
  | .error _ => (tr, .ok [])
  | .ok m =>
    if m.error != "" then (tr, .ok [])
    else if m.total == 0 then (tr, .ok [])
    else
      match m.results with
      | [] => (tr, .panicked)
      | r :: _ => if r.asns.isEmpty then (tr, .ok []) else (tr, .ok r.asns)

/-- networksdb.go apiASNInfoQuery (lines 406-446). -/
def apiASNInfoQuery (o : Oracle) (tag : String) (asn : Int) :
    List Effect × Option ASNRequest :=
  let tr := numRateLimitChecks 3 ++ [Effect.netCall getAPIASNInfoURL]
  match o.apiASNInfo asn with
  | .error _ => (tr, none)
  | .ok m =>
    if m.error != "" then (tr, none)
    else
      match m.results with
      | [] => (tr, none)
      | r :: _ =>
        if m.total == 0 then (tr, none)
        else
          let req : ASNRequest :=
            { asn := r.asn, cc := r.countryCode,
              description := r.description ++ ", " ++ r.countryCode,
              tag := tag, source := "NetworksDB" }
          (tr, some req)

/-- networksdb.go apiNetblocksQuery (lines 452-487). -/
def apiNetblocksQuery (o : Oracle) (asn : Int) : List Effect × List String :=
  let tr := numRateLimitChecks 3 ++ [Effect.netCall getAPINetblocksURL]
  match o.apiNetblocks asn with
  | .error _ => (tr, [])
  | .ok m =>
    if m.error != "" then (tr, [])
    else
      match m.results with
      | [] => (tr, [])
      | r :: rest =>
        if m.total == 0 then (tr, [])
        else (tr, (r :: rest).foldl (fun s b => insertStr s b.cidr) [])

/-- networksdb.go executeAPIASNQuery (lines 283-327). -/
def executeAPIASNQuery (o : Oracle) (tag : String) (asn : Int) (addr : String)
    (netblocks0 : Option (List String)) : List Effect × Outcome Unit :=
  let netblocks := netblocks0.getD []
  let fetched :=
    if netblocks.isEmpty then
      let q := apiNetblocksQuery o asn
      (q.1, q.2.foldl insertStr netblocks)
    else ([], netblocks)
  let trF := fetched.1
  let netblocks := fetched.2
  if netblocks.isEmpty then (trF, .ok ())
  else
    let pfx :=
      if addr != "" then
        match findContainingCIDR netblocks (parseIPv4 addr) with
        | some c => c
        | none => ""
      else ""
    match netblocks with
    | [] => (trF, .panicked)
    | nb0 :: _ =>
      let pfx := if pfx == "" then nb0 else pfx
      let tr2 := numRateLimitChecks 3
      let q3 := apiASNInfoQuery o tag asn
      let tr3 := q3.1
      match q3.2 with
      | none => (trF ++ tr2 ++ tr3, .ok ())
      | some req =>
        let req := if addr != "" then { req with address := addr } else req
        let req := { req with pfx := pfx, netblocks := netblocks }
        (trF ++ tr2 ++ tr3 ++ [Effect.cacheUpdate req], .ok ())

/-- The candidate loop of executeAPIASNAddrQuery (lines 256-274): query each
candidate's netblocks in turn; the first candidate with a parseable netblock
containing the address wins and breaks both loops; `cidrs` keeps the last
queried candidate's set either way. -/
def candidateLoop (o : Oracle) (ip : Option Nat) :
    List Int → List String → List Effect × Int × List String
  | [], cidrs => ([], 0, cidrs)
  | a :: rest, _ =>
    let tr := numRateLimitChecks 3
    let q := apiNetblocksQuery o a
    match findContainingCIDR q.2 ip with
    | some _ => (tr ++ q.1, a, q.2)
    | none =>
      let r := candidateLoop o ip rest q.2
      (tr ++ q.1 ++ r.1, r.2.1, r.2.2)

/-- networksdb.go executeAPIASNAddrQuery (lines 238-281). -/
def executeAPIASNAddrQuery (o : Oracle) (tag : String) (addr : String) :
    List Effect × Outcome Unit :=
  let q1 := apiIPQuery o addr
  let tr1 := q1.1
  let id := q1.2.2
  if id == "" then (tr1, .ok ())
  else
    let tr2 := numRateLimitChecks 3
    let q2 := apiOrgInfoQuery o id
    let tr3 := q2.1
    match q2.2 with
    | .panicked => (tr1 ++ tr2 ++ tr3, .panicked)
    | .ok asns =>
      if asns.isEmpty then (tr1 ++ tr2 ++ tr3, .ok ())
      else
        let loopR := candidateLoop o (parseIPv4 addr) asns []
        if loopR.2.1 == 0 then (tr1 ++ tr2 ++ tr3 ++ loopR.1, .ok ())
        else
          let r := executeAPIASNQuery o tag loopR.2.1 addr (some loopR.2.2)
          (tr1 ++ tr2 ++ tr3 ++ loopR.1 ++ r.1, r.2)

/-- networksdb.go asnRequest (lines 103-126). -/
def asnRequest (o : Oracle) (hasKey : Bool) (req : ASNRequest) :
    List Effect × Outcome Unit :=
  if req.address == "" && req.asn == 0 then ([], .ok ())
  else
    let tag := if hasKey then "api" else "scrape"
    let tr0 := numRateLimitChecks 2
    if hasKey then
      if req.address != "" then
        let r := executeAPIASNAddrQuery o tag req.address
        (tr0 ++ r.1, r.2)
      else
        let r := executeAPIASNQuery o tag req.asn "" none
        (tr0 ++ r.1, r.2)
    else
      if req.address != "" then
        let r := executeASNAddrQuery o tag req.address
        (tr0 ++ r.1, r.2)
      else
        let r := executeASNQuery o tag req.asn "" []
        (tr0 ++ r.1, r.2)

/-- The free-text domain harvest of networksdb.go whoisRequest (lines
561-572): bound the region from the end of the first "Domains in network"
match to the end of the first "<table class" match and run the subdomain
regex on page[start:end]. `.ok none` models a missing marker (the caller
logs and continues); an unguarded Go slice with start > end panics. -/
def scanDomainsSection (harvest : String → List String) (page : String) :
    Outcome (Option (List String)) :=
  let cs := page.toList
  match findSubstrIdx ("Domains in network".toList) cs,
        findSubstrIdx ("<table class".toList) cs with
  | some di, some ti =>
    match goSlice cs (di + ("Domains in network".toList).length)
        (ti + ("<table class".toList).length) with
    | .ok region => .ok (some (harvest (String.mk region)))
    | .panicked => .panicked
  | _, _ => .ok none

/-- The per-IP-link loop of networksdb.go whoisRequest (lines 527-573). -/
def whoisLoop (o : Oracle) : List String → List String → List Effect × Outcome (List String)
  | [], acc => ([], .ok acc)
  | href :: rest, acc =>
    let u := baseURL ++ href
    let tr := numRateLimitChecks 3 ++ [Effect.netCall u]
    match o.ipPageCIDR u with
    | .error _ =>
      let r := whoisLoop o rest acc
      (tr ++ r.1, r.2)
    | .ok none =>
      let r := whoisLoop o rest acc
      (tr ++ r.1, r.2)
    | .ok (some cm) =>
      match parseCIDR cm with
      | none =>
        let r := whoisLoop o rest acc
        (tr ++ r.1, r.2)
      | some c =>
        let fl := cidrFirstLast c
        let u2 := getDomainsInNetworkURL (ipv4ToString fl.1) (ipv4ToString fl.2)
        let tr := tr ++ numRateLimitChecks 3 ++ [Effect.netCall u2]
        match o.domainsPage u2 with
        | .error _ =>
          let r := whoisLoop o rest acc
          (tr ++ r.1, r.2)
        | .ok page =>
          match scanDomainsSection o.harvest page with
          | .panicked => (tr, .panicked)
          | .ok none =>
            let r := whoisLoop o rest acc
            (tr ++ r.1, r.2)
          | .ok (some ds) =>
            let acc := ds.foldl (fun a d => insertStr a (goTrim d)) acc
            let r := whoisLoop o rest acc
            (tr ++ r.1, r.2)

/-- networksdb.go whoisRequest (lines 504-583). -/
def whoisRequest (o : Oracle) (hasKey : Bool) (inScope : String → Bool)
    (domain : String) : List Effect × Outcome Unit :=
  if !(inScope domain) then ([], .ok ())
  else
    let tr := numRateLimitChecks 2 ++ [Effect.netCall (getDomainToIPURL domain)]
    match o.ipLinks (getDomainToIPURL domain) with
    | .error _ => (tr, .ok ())
    | .ok [] => (tr, .ok ())
    | .ok (h :: t) =>
      let r := whoisLoop o (h :: t) []
      match r.2 with
      | .panicked => (tr ++ r.1, .panicked)
      | .ok newdomains =>
        if newdomains.length > 0 then
          (tr ++ r.1 ++ [Effect.emitWhois domain newdomains
            (if hasKey then "api" else "scrape") "NetworksDB"], .ok ())
        else (tr ++ r.1, .ok ())

end NetworksDB

/-! ## Claim theorems -/

/-! #### Structural lemmas about the Umbrella mutual recursion -/

namespace Umbrella

theorem applyNetblock_pfx (r : ASNRequest) (nb : NetblockRecord) :
    (applyNetblock r nb).pfx = r.pfx := by
  unfold applyNetblock
  dsimp only
  split <;> rfl

theorem applyNetblock_registry (r : ASNRequest) (nb : NetblockRecord) :
    (applyNetblock r nb).registry = r.registry := by
  unfold applyNetblock
  dsimp only
  split <;> rfl

theorem applyNetblock_netblocks (r : ASNRequest) (nb : NetblockRecord) :
    (applyNetblock r nb).netblocks = r.netblocks ++ [goTrim nb.cidr] := by
  unfold applyNetblock
  dsimp only
  split <;> rfl

theorem foldl_applyNetblock_netblocks (l : List NetblockRecord) (r : ASNRequest) :
    (l.foldl applyNetblock r).netblocks =
      r.netblocks ++ l.map (fun nb => goTrim nb.cidr) := by
  induction l generalizing r with
  | nil => simp
  | cons nb rest ih =>
    simp only [List.foldl_cons, List.map_cons, ih, applyNetblock_netblocks,
      List.append_assoc, List.cons_append, List.nil_append]

theorem foldl_applyNetblock_registry (l : List NetblockRecord) (r : ASNRequest) :
    (l.foldl applyNetblock r).registry = r.registry := by
  induction l generalizing r with
  | nil => rfl
  | cons nb rest ih => simp only [List.foldl_cons, ih, applyNetblock_registry]

/-- When the request already carries netblocks, executeASNAddrQuery never
recurses into executeASNQuery: it succeeds on any fuel and its trace enters
addrQ once and asnQ never. -/
theorem addrQ_no_recursion (f : Nat) (o : Oracle) (req : ASNRequest)
    (h : req.netblocks ≠ []) :
    ∃ p, executeASNAddrQuery (f + 1) o req = some p ∧
      countEnter .addrQ p.1 = 1 ∧ countEnter .asnQ p.1 = 0 := by
  simp only [executeASNAddrQuery]
  cases h1 : o.addrToASN req.address with
  | error e =>
    exact ⟨_, rfl, by simp [countEnter, List.countP_cons]⟩
  | ok as =>
    cases as with
    | nil => exact ⟨_, rfl, by simp [countEnter, List.countP_cons]⟩
    | cons a rest =>
      cases hd : a.dateOK with
      | false =>
        simp only [hd, Bool.not_false, if_true]
        exact ⟨_, rfl, by simp [countEnter, List.countP_cons]⟩
      | true =>
        simp only [hd, Bool.not_true, Bool.false_eq_true, if_false]
        cases hnb : req.netblocks with
        | nil => exact absurd hnb h
        | cons nb0 nbrest =>
          simp only [List.isEmpty_cons, Bool.false_eq_true, if_false]
          exact ⟨_, rfl, by simp [countEnter, List.countP_cons, List.countP_append]⟩

/-- One step of executeASNQuery: it succeeds with fuel for one more
executeASNAddrQuery call, entering asnQ exactly once and addrQ at most once
— the asn→addr hop happens at most one time. -/
theorem asnQ_one_hop (f : Nat) (o : Oracle) (req : ASNRequest) :
    ∃ p, executeASNQuery (f + 1 + 1) o req = some p ∧
      countEnter .addrQ p.1 ≤ 1 ∧ countEnter .asnQ p.1 = 1 := by
  simp only [executeASNQuery]
  cases h1 : o.asnToCIDRs req.asn with
  | error e => exact ⟨_, rfl, by simp [countEnter, List.countP_cons]⟩
  | ok nbs =>
    cases nbs with
    | nil => exact ⟨_, rfl, by simp [countEnter, List.countP_cons]⟩
    | cons nb0 rest =>
      cases hp : (List.foldl applyNetblock req (nb0 :: rest)).pfx == "" with
      | false =>
        simp only [hp, Bool.false_eq_true, if_false]
        cases hf : (nb0 :: rest).find? (fun nb => nb.cidr == (List.foldl applyNetblock req (nb0 :: rest)).pfx) with
        | none => exact ⟨_, rfl, by simp [countEnter, List.countP_cons]⟩
        | some nb => exact ⟨_, rfl, by simp [countEnter, List.countP_cons]⟩
      | true =>
        simp only [hp, if_true]
        cases hc : parseCIDR nb0.cidr with
        | none =>
          simp only [hc]
          cases hf : (nb0 :: rest).find? (fun nb => nb.cidr == (List.foldl applyNetblock req (nb0 :: rest)).pfx) with
          | none => exact ⟨_, rfl, by simp [countEnter, List.countP_cons]⟩
          | some nb => exact ⟨_, rfl, by simp [countEnter, List.countP_cons]⟩
        | some c =>
          simp only [hc]
          have hne : ({ List.foldl applyNetblock req (nb0 :: rest) with
              address := ipv4ToString c.ip,
              cc := nb0.countryCode } : ASNRequest).netblocks ≠ [] := by
            show (List.foldl applyNetblock req (nb0 :: rest)).netblocks ≠ []
            rw [foldl_applyNetblock_netblocks]
            simp
          obtain ⟨p', hp', c1, c2⟩ := addrQ_no_recursion f o _ hne
          rw [hp']
          refine ⟨_, rfl, ?_, ?_⟩ <;>
          · rw [countEnter_append, countEnter_append]
            have e1 : countEnter FuncTag.addrQ
                [Effect.enter FuncTag.asnQ, Effect.netCall (restASNToCIDRsURL req.asn)] = 0 := by
              simp [countEnter, List.countP_cons]
            have e2 : countEnter FuncTag.asnQ
                [Effect.enter FuncTag.asnQ, Effect.netCall (restASNToCIDRsURL req.asn)] = 1 := by
              simp [countEnter, List.countP_cons]
            have e3 : countEnter FuncTag.addrQ [Effect.rateCheck] = 0 := by
              simp [countEnter, List.countP_cons]
            have e4 : countEnter FuncTag.asnQ [Effect.rateCheck] = 0 := by
              simp [countEnter, List.countP_cons]
            omega

/-- executeASNAddrQuery with fuel 3 always succeeds; its trace enters asnQ
at most once (one addr→asn hop) and addrQ at most twice (so at most one
asn→addr hop back). -/
theorem addrQ_terminates (f : Nat) (o : Oracle) (req : ASNRequest) :
    ∃ p, executeASNAddrQuery (f + 1 + 1 + 1) o req = some p ∧
      countEnter .asnQ p.1 ≤ 1 ∧ countEnter .addrQ p.1 ≤ 2 := by
  simp only [executeASNAddrQuery]
  cases h1 : o.addrToASN req.address with
  | error e => exact ⟨_, rfl, by simp [countEnter, List.countP_cons]⟩
  | ok as =>
    cases as with
    | nil => exact ⟨_, rfl, by simp [countEnter, List.countP_cons]⟩
    | cons a rest =>
      cases hd : a.dateOK with
      | false =>
        simp only [hd, Bool.not_false, if_true]
        exact ⟨_, rfl, by simp [countEnter, List.countP_cons]⟩
      | true =>
        simp only [hd, Bool.not_true, Bool.false_eq_true, if_false]
        cases hnb : req.netblocks with
        | cons nb0 nbrest =>
          simp only [List.isEmpty_cons, Bool.false_eq_true, if_false]
          exact ⟨_, rfl, by simp [countEnter, List.countP_cons, List.countP_append]⟩
        | nil =>
          simp only [List.isEmpty_nil, if_true]
          obtain ⟨p', hp', c1, c2⟩ := asnQ_one_hop f o
            ({ req with
              asn := a.asn, pfx := a.cidr, registry := registryName a.registry,
              description := a.description, tag := "api", source := "Umbrella",
              netblocks := [goTrim a.cidr] } : ASNRequest)
          rw [hp']
          refine ⟨_, rfl, ?_, ?_⟩ <;>
          · rw [countEnter_append, countEnter_append, countEnter_append]
            have e1 : countEnter FuncTag.addrQ
                [Effect.enter FuncTag.addrQ, Effect.netCall (restAddrToASNURL req.address)] = 1 := by
              simp [countEnter, List.countP_cons]
            have e2 : countEnter FuncTag.asnQ
                [Effect.enter FuncTag.addrQ, Effect.netCall (restAddrToASNURL req.address)] = 0 := by
              simp [countEnter, List.countP_cons]
            have e3 : countEnter FuncTag.addrQ [Effect.rateCheck] = 0 := by
              simp [countEnter, List.countP_cons]
            have e4 : countEnter FuncTag.asnQ [Effect.rateCheck] = 0 := by
              simp [countEnter, List.countP_cons]
            have e5 : countEnter FuncTag.addrQ [Effect.cacheUpdate p'.2] = 0 := by
              simp [countEnter, List.countP_cons]
            have e6 : countEnter FuncTag.asnQ [Effect.cacheUpdate p'.2] = 0 := by
              simp [countEnter, List.countP_cons]
            omega

end Umbrella

theorem findContainingCIDR_skips_malformed (l : List String) (a : Option Nat) :
    findContainingCIDR l a =
      findContainingCIDR (l.filter fun t => (parseCIDR t).isSome) a := by
  induction l with
  | nil => rfl
  | cons x xs ih =>
    unfold findContainingCIDR at ih ⊢
    cases hx : parseCIDR x with
    | none =>
      simp only [List.filter_cons, List.find?_cons, hx, Option.isSome_none,
        Bool.false_eq_true, if_false]
      exact ih
    | some c =>
      simp only [List.filter_cons, List.find?_cons, hx, Option.isSome_some, if_true]
      cases hc : cidrContainsOpt c a with
      | false => simpa [List.find?_cons, hx, hc] using ih
      | true => simp [List.find?_cons, hx, hc]

/-- **C2**: for every ASN-lookup request and every shape of provider
responses (every oracle), the mutual recursion between executeASNAddrQuery
and executeASNQuery executes at most one hop in each direction: an
address-first run enters asnQ at most once and addrQ at most twice, an
ASN-first run enters addrQ at most once and asnQ exactly once, and recursion
depth 3 always suffices, so processing of one logical request terminates
(asnRequest at fuel 3 never exhausts its fuel). -/
theorem C2_cycle_avoidance (o : Umbrella.Oracle) (req : ASNRequest) :
    (∃ p, Umbrella.executeASNAddrQuery 3 o req = some p ∧
      countEnter .asnQ p.1 ≤ 1 ∧ countEnter .addrQ p.1 ≤ 2) ∧
    (∃ p, Umbrella.executeASNQuery 3 o req = some p ∧
      countEnter .addrQ p.1 ≤ 1 ∧ countEnter .asnQ p.1 = 1) ∧
    ∀ hasKey, (Umbrella.asnRequest 3 hasKey o req).isSome := by
  obtain ⟨pa, hpa0, ca1, ca2⟩ := Umbrella.addrQ_terminates 0 o req
  obtain ⟨ps, hps0, cs1, cs2⟩ := Umbrella.asnQ_one_hop 1 o req
  have hpa : Umbrella.executeASNAddrQuery 3 o req = some pa := hpa0
  have hps : Umbrella.executeASNQuery 3 o req = some ps := hps0
  refine ⟨⟨pa, hpa, ca1, ca2⟩, ⟨ps, hps, cs1, cs2⟩, ?_⟩
  intro hasKey
  unfold Umbrella.asnRequest
  split
  · simp
  · split
    · simp
    · split
      · rw [hpa]; rfl
      · rw [hps]; rfl

/-- The registry names the Umbrella switch can produce. -/
def validRegistries : List String :=
  ["AfriNIC", "APNIC", "ARIN", "LACNIC", "RIPE NCC", "N/A"]

theorem registryName_mem_validRegistries (ir : Int) :
    Umbrella.registryName ir ∈ validRegistries := by
  unfold Umbrella.registryName validRegistries
  split_ifs <;> simp

theorem registryName_default (ir : Int) (h : ir ∉ ([1, 2, 3, 4, 5] : List Int)) :
    Umbrella.registryName ir = "N/A" := by
  simp only [List.mem_cons, List.mem_singleton, not_or] at h
  obtain ⟨h1, h2, h3, h4, h5, _⟩ := h
  unfold Umbrella.registryName
  simp [h1, h2, h3, h4, h5]

/-- Every ASNFact cached during an Umbrella run carries a registry name from
the switch, and the final request's registry is either untouched or from the
switch. -/
theorem umbrella_registry_invariant (f : Nat) :
    (∀ (o : Umbrella.Oracle) (req : ASNRequest) p,
      Umbrella.executeASNAddrQuery f o req = some p →
        (∀ fact ∈ cacheUpdates p.1, fact.registry ∈ validRegistries) ∧
          (p.2.registry = req.registry ∨ p.2.registry ∈ validRegistries)) ∧
    (∀ (o : Umbrella.Oracle) (req : ASNRequest) p,
      Umbrella.executeASNQuery f o req = some p →
        (∀ fact ∈ cacheUpdates p.1, fact.registry ∈ validRegistries) ∧
          (p.2.registry = req.registry ∨ p.2.registry ∈ validRegistries)) := by
  induction f with
  | zero =>
    constructor <;> intro o req p h <;>
      simp [Umbrella.executeASNAddrQuery, Umbrella.executeASNQuery] at h
  | succ f ih =>
    obtain ⟨ihA, ihS⟩ := ih
    constructor
    · intro o req p h
      simp only [Umbrella.executeASNAddrQuery] at h
      cases h1 : o.addrToASN req.address with
      | error e =>
        rw [h1] at h
        simp only [Option.some.injEq] at h
        subst h
        exact ⟨by simp [cacheUpdates], Or.inl rfl⟩
      | ok as =>
        rw [h1] at h
        cases as with
        | nil =>
          simp only [Option.some.injEq] at h
          subst h
          exact ⟨by simp [cacheUpdates], Or.inl rfl⟩
        | cons a rest =>
          cases hd : a.dateOK with
          | false =>
            simp only [hd, Bool.not_false, if_true, Option.some.injEq] at h
            subst h
            exact ⟨by simp [cacheUpdates], Or.inl rfl⟩
          | true =>
            simp only [hd, Bool.not_true, Bool.false_eq_true, if_false] at h
            cases hnb : req.netblocks with
            | cons nb0 nbrest =>
              rw [hnb] at h
              simp only [List.isEmpty_cons, Bool.false_eq_true, if_false,
                Option.some.injEq] at h
              subst h
              refine ⟨?_, Or.inr (registryName_mem_validRegistries a.registry)⟩
              intro fact hf
              simp at hf
              subst hf
              exact registryName_mem_validRegistries a.registry
            | nil =>
              rw [hnb] at h
              simp only [List.isEmpty_nil, if_true] at h
              split at h
              · simp at h
              · rename_i tr2 req2 hrec
                simp only [Option.some.injEq] at h
                subst h
                obtain ⟨hupd, hreg⟩ := ihS o _ _ hrec
                have hqreg : req2.registry ∈ validRegistries := by
                  rcases hreg with hreg | hreg
                  · rw [hreg]; exact registryName_mem_validRegistries a.registry
                  · exact hreg
                refine ⟨?_, Or.inr hqreg⟩
                intro fact hf
                simp at hf
                rcases hf with hf | rfl
                · exact hupd fact hf
                · exact hqreg
    · intro o req p h
      simp only [Umbrella.executeASNQuery] at h
      cases h1 : o.asnToCIDRs req.asn with
      | error e =>
        rw [h1] at h
        simp only [Option.some.injEq] at h
        subst h
        exact ⟨by simp [cacheUpdates], Or.inl rfl⟩
      | ok nbs =>
        rw [h1] at h
        cases nbs with
        | nil =>
          simp only [Option.some.injEq] at h
          subst h
          exact ⟨by simp [cacheUpdates], Or.inl rfl⟩
        | cons nb0 rest =>
          cases hp : (List.foldl Umbrella.applyNetblock req (nb0 :: rest)).pfx == "" with
          | false =>
            simp only [hp, Bool.false_eq_true, if_false] at h
            cases hf : (nb0 :: rest).find?
                (fun nb => nb.cidr == (List.foldl Umbrella.applyNetblock req (nb0 :: rest)).pfx) with
            | none =>
              rw [hf] at h
              simp only [Option.some.injEq] at h
              subst h
              exact ⟨by simp [cacheUpdates],
                Or.inl (Umbrella.foldl_applyNetblock_registry _ _)⟩
            | some nb =>
              rw [hf] at h
              simp only [Option.some.injEq] at h
              subst h
              refine ⟨by simp [cacheUpdates], Or.inl ?_⟩
              show (List.foldl Umbrella.applyNetblock req (nb0 :: rest)).registry = req.registry
              exact Umbrella.foldl_applyNetblock_registry _ _
          | true =>
            simp only [hp, if_true] at h
            cases hc : parseCIDR nb0.cidr with
            | none =>
              simp only [hc] at h
              split at h <;>
              · simp only [Option.some.injEq] at h
                subst h
                refine ⟨by simp, Or.inl ?_⟩
                show (List.foldl Umbrella.applyNetblock req (nb0 :: rest)).registry = req.registry
                exact Umbrella.foldl_applyNetblock_registry _ _
            | some c =>
              simp only [hc] at h
              split at h
              · simp at h
              · rename_i tr2 req2 hrec
                simp only [Option.some.injEq] at h
                subst h
                obtain ⟨hupd, hreg⟩ := ihA o _ _ hrec
                have hreg2 : req2.registry = req.registry ∨ req2.registry ∈ validRegistries := by
                  rcases hreg with hreg | hreg
                  · left
                    rw [hreg]
                    show (List.foldl Umbrella.applyNetblock req (nb0 :: rest)).registry = req.registry
                    exact Umbrella.foldl_applyNetblock_registry _ _
                  · exact Or.inr hreg
                refine ⟨?_, hreg2⟩
                intro fact hf
                simp at hf
                exact hupd fact hf

/-! #### Set-fold and NetworksDB helper lemmas -/

theorem foldl_insertStr_nodup (l : List String) (init : List String) (h : init.Nodup) :
    (l.foldl insertStr init).Nodup := by
  induction l generalizing init with
  | nil => exact h
  | cons x xs ih => exact ih _ (insertStr_nodup _ _ h)

theorem foldl_insertStr_f_nodup {α : Type} (f : α → String) (l : List α)
    (init : List String) (h : init.Nodup) :
    (l.foldl (fun s x => insertStr s (f x)) init).Nodup := by
  induction l generalizing init with
  | nil => exact h
  | cons x xs ih => exact ih _ (insertStr_nodup _ _ h)

theorem headD_mem (l : List String) (h : l ≠ []) : l.headD "" ∈ l := by
  cases l with
  | nil => exact absurd rfl h
  | cons x xs => simp

namespace NetworksDB

theorem numRateLimitChecks_cacheUpdates (n : Nat) :
    cacheUpdates (numRateLimitChecks n) = [] := by
  induction n with
  | zero => rfl
  | succ n ih => simpa [numRateLimitChecks, List.replicate_succ] using ih

theorem numRateLimitChecks_countRate (n : Nat) :
    countRateChecks (numRateLimitChecks n) = n := by
  induction n with
  | zero => rfl
  | succ n ih =>
    simp [numRateLimitChecks, List.replicate_succ, countRateChecks,
      List.countP_cons] at ih ⊢
    omega

theorem numRateLimitChecks_countNet (n : Nat) :
    countNetCalls (numRateLimitChecks n) = 0 := by
  induction n with
  | zero => rfl
  | succ n ih =>
    simpa [numRateLimitChecks, List.replicate_succ, countNetCalls,
      List.countP_cons] using ih

theorem apiIPQuery_trace (o : Oracle) (addr : String) :
    (apiIPQuery o addr).1 = numRateLimitChecks 3 ++ [Effect.netCall getAPIIPURL] := by
  simp only [apiIPQuery]
  repeat' split
  all_goals rfl

theorem apiOrgInfoQuery_trace (o : Oracle) (id : String) :
    (apiOrgInfoQuery o id).1 =
      numRateLimitChecks 3 ++ [Effect.netCall getAPIOrgInfoURL] := by
  simp only [apiOrgInfoQuery]
  repeat' split
  all_goals rfl

theorem apiASNInfoQuery_trace (o : Oracle) (tag : String) (asn : Int) :
    (apiASNInfoQuery o tag asn).1 =
      numRateLimitChecks 3 ++ [Effect.netCall getAPIASNInfoURL] := by
  simp only [apiASNInfoQuery]
  repeat' split
  all_goals rfl

theorem apiNetblocksQuery_trace (o : Oracle) (asn : Int) :
    (apiNetblocksQuery o asn).1 =
      numRateLimitChecks 3 ++ [Effect.netCall getAPINetblocksURL] := by
  simp only [apiNetblocksQuery]
  repeat' split
  all_goals rfl

theorem apiNetblocksQuery_nodup (o : Oracle) (asn : Int) :
    (apiNetblocksQuery o asn).2.Nodup := by
  unfold apiNetblocksQuery
  split
  · simp
  · split
    · simp
    · split
      · simp
      · split
        · simp
        · exact foldl_insertStr_f_nodup _ _ [] List.nodup_nil

theorem candidateLoop_cidrs_nodup (o : Oracle) (ip : Option Nat) (asns : List Int)
    (c0 : List String) (h : c0.Nodup) :
    (candidateLoop o ip asns c0).2.2.Nodup := by
  induction asns generalizing c0 with
  | nil => exact h
  | cons a rest ih =>
    simp only [candidateLoop]
    cases hf : findContainingCIDR (apiNetblocksQuery o a).2 ip with
    | some c => simp only [hf]; exact apiNetblocksQuery_nodup o a
    | none => simp only [hf]; exact ih _ (apiNetblocksQuery_nodup o a)

/-- The scrape prefix selector yields "" or a member of the netblock set. -/
theorem selectPrefix_spec (nbs : List String) (addr : String) :
    selectPrefix nbs addr = "" ∨ selectPrefix nbs addr ∈ nbs := by
  unfold selectPrefix
  cases haddr : (addr != "") with
  | false =>
    simp only [haddr, Bool.false_eq_true, if_false]
    by_cases hl : nbs.length > 0
    · right
      have hne : nbs ≠ [] := by
        intro hcontra
        rw [hcontra] at hl
        simp at hl
      simp only [hl]
      simpa using headD_mem nbs hne
    · left
      simp [hl]
  | true =>
    simp only [haddr, if_true]
    cases hf : findContainingCIDR nbs (parseIPv4 addr) with
    | none =>
      simp only [hf]
      by_cases hl : nbs.length > 0
      · right
        have hne : nbs ≠ [] := by
          intro hcontra
          rw [hcontra] at hl
          simp at hl
        simp only [hl]
        simpa using headD_mem nbs hne
      · left
        simp [hl]
    | some c =>
      simp only [hf]
      by_cases hc : (c == "") = true
      · by_cases hl : nbs.length > 0
        · right
          have hne : nbs ≠ [] := by
            intro hcontra
            rw [hcontra] at hl
            simp at hl
          simp only [hc, hl]
          simpa using headD_mem nbs hne
        · left
          simp only [hc, hl]
          simpa using eq_of_beq hc
      · right
        simp only [hc]
        simp only [Bool.false_and, Bool.false_eq_true, if_false]
        exact List.mem_of_find?_eq_some hf

/-- Every fact cached by the scrape-path executeASNQuery has duplicate-free
netblocks containing its prefix when one was selected. -/
theorem executeASNQuery_invariant (o : Oracle) (tag : String) (asn : Int)
    (addr : String) (netblocks : List String) (h : netblocks.Nodup) :
    ∀ fact ∈ cacheUpdates (executeASNQuery o tag asn addr netblocks).1,
      fact.netblocks.Nodup ∧ (fact.pfx ≠ "" → fact.pfx ∈ fact.netblocks) := by
  simp only [executeASNQuery]
  cases h1 : o.page (getASNURL asn) with
  | error e => simp [numRateLimitChecks_cacheUpdates]
  | ok pg =>
    simp only [h1]
    cases h2 : pg.asName with
    | none => simp [numRateLimitChecks_cacheUpdates]
    | some nameRaw =>
      simp only [h2]
      cases h3 : pg.countryCode with
      | none => simp [numRateLimitChecks_cacheUpdates]
      | some ccRaw =>
        simp only [h3]
        intro fact hf
        simp [numRateLimitChecks_cacheUpdates] at hf
        subst hf
        refine ⟨foldl_insertStr_f_nodup _ _ _ h, fun hne => ?_⟩
        rcases selectPrefix_spec
            (pg.cidrMatches.foldl (fun s m => insertStr s (goTrim m)) netblocks) addr with
          hsp | hsp
        · exact absurd hsp hne
        · exact hsp

/-- Every fact cached by the API-path executeAPIASNQuery has duplicate-free
netblocks containing its prefix. -/
theorem executeAPIASNQuery_invariant (o : Oracle) (tag : String) (asn : Int)
    (addr : String) (netblocks0 : Option (List String))
    (h : (netblocks0.getD []).Nodup) :
    ∀ fact ∈ cacheUpdates (executeAPIASNQuery o tag asn addr netblocks0).1,
      fact.netblocks.Nodup ∧ (fact.pfx ≠ "" → fact.pfx ∈ fact.netblocks) := by
  simp only [executeAPIASNQuery]
  have hN : (if (netblocks0.getD []).isEmpty = true then
      ((apiNetblocksQuery o asn).1,
        (apiNetblocksQuery o asn).2.foldl insertStr (netblocks0.getD []))
    else ([], netblocks0.getD [])).2.Nodup := by
    split
    · exact foldl_insertStr_nodup _ _ h
    · exact h
  generalize hfe : (if (netblocks0.getD []).isEmpty = true then
      ((apiNetblocksQuery o asn).1,
        (apiNetblocksQuery o asn).2.foldl insertStr (netblocks0.getD []))
    else ([], netblocks0.getD [])) = fetched
  rw [hfe] at hN
  have hf1 : cacheUpdates fetched.1 = [] := by
    rw [← hfe]
    split
    · simp [apiNetblocksQuery_trace, numRateLimitChecks_cacheUpdates]
    · simp
  have hf2 : cacheUpdates (apiASNInfoQuery o tag asn).1 = [] := by
    simp [apiASNInfoQuery_trace, numRateLimitChecks_cacheUpdates]
  by_cases he : fetched.2.isEmpty = true
  · simp [he, hf1]
  · simp only [he, Bool.false_eq_true, if_false]
    cases hnb : fetched.2 with
    | nil => simp [hnb] at he
    | cons nb0 nbrest =>
      cases hinfo : (apiASNInfoQuery o tag asn).2 with
      | none => simp [hinfo, hf1, hf2, numRateLimitChecks_cacheUpdates]
      | some req =>
        simp only [hinfo]
        intro fact hf
        simp only [cacheUpdates_append, hf1, hf2, numRateLimitChecks_cacheUpdates,
          cacheUpdates_cons_update, cacheUpdates_nil, List.nil_append,
          List.append_nil, List.mem_singleton] at hf
        subst hf
        have hstep : ∀ p1 : String, (p1 = "" ∨ p1 ∈ nb0 :: nbrest) →
            (if (p1 == "") = true then nb0 else p1) ∈ nb0 :: nbrest := by
          intro p1 hp
          split
          · exact List.mem_cons_self _ _
          · rename_i hfalse
            rcases hp with rfl | hp
            · simp at hfalse
            · exact hp
        have hsel : (if (addr != "") = true then
            match findContainingCIDR (nb0 :: nbrest) (parseIPv4 addr) with
            | some c => c
            | none => ""
          else "") = "" ∨ (if (addr != "") = true then
            match findContainingCIDR (nb0 :: nbrest) (parseIPv4 addr) with
            | some c => c
            | none => ""
          else "") ∈ nb0 :: nbrest := by
          split
          · cases hfind : findContainingCIDR (nb0 :: nbrest) (parseIPv4 addr) with
            | none => simp [hfind]
            | some c =>
              simp only [hfind]
              exact Or.inr (List.mem_of_find?_eq_some hfind)
          · exact Or.inl rfl
        constructor
        · show (nb0 :: nbrest).Nodup
          rw [← hnb]
          exact hN
        · intro hne
          exact hstep _ hsel

theorem candidateLoop_no_updates (o : Oracle) (ip : Option Nat) (asns : List Int)
    (c0 : List String) : cacheUpdates (candidateLoop o ip asns c0).1 = [] := by
  induction asns generalizing c0 with
  | nil => rfl
  | cons a rest ih =>
    simp only [candidateLoop]
    cases hf : findContainingCIDR (apiNetblocksQuery o a).2 ip with
    | some c =>
      simp [hf, apiNetblocksQuery_trace, numRateLimitChecks_cacheUpdates]
    | none =>
      simp [hf, apiNetblocksQuery_trace, numRateLimitChecks_cacheUpdates, ih]

/-- Every fact cached by the scrape-path executeASNAddrQuery satisfies the
set invariant. -/
theorem executeASNAddrQuery_invariant (o : Oracle) (tag : String) (addr : String) :
    ∀ fact ∈ cacheUpdates (executeASNAddrQuery o tag addr).1,
      fact.netblocks.Nodup ∧ (fact.pfx ≠ "" → fact.pfx ∈ fact.netblocks) := by
  simp only [executeASNAddrQuery]
  cases h1 : o.page (getIPURL addr) with
  | error e => simp
  | ok pg =>
    simp only [h1]
    cases h2 : pg.asnLinkHref with
    | none => simp
    | some href =>
      simp only [h2]
      cases h3 : o.page (baseURL ++ href) with
      | error e => simp [numRateLimitChecks_cacheUpdates]
      | ok pg2 =>
        simp only [h3]
        cases h4 : pg2.asnText with
        | none => simp [numRateLimitChecks_cacheUpdates]
        | some t =>
          simp only [h4]
          cases h5 : goAtoi (goTrim t) with
          | none => simp [numRateLimitChecks_cacheUpdates]
          | some n =>
            simp only [h5]
            intro fact hf
            simp only [cacheUpdates_append, cacheUpdates_cons_netCall,
              cacheUpdates_nil, numRateLimitChecks_cacheUpdates, List.nil_append,
              List.append_nil, List.mem_append, List.not_mem_nil, false_or] at hf
            exact executeASNQuery_invariant o tag n addr _
              (foldl_insertStr_f_nodup _ _ [] List.nodup_nil) fact hf

/-- Every fact cached by the API-path executeAPIASNAddrQuery satisfies the
set invariant. -/
theorem executeAPIASNAddrQuery_invariant (o : Oracle) (tag : String) (addr : String) :
    ∀ fact ∈ cacheUpdates (executeAPIASNAddrQuery o tag addr).1,
      fact.netblocks.Nodup ∧ (fact.pfx ≠ "" → fact.pfx ∈ fact.netblocks) := by
  simp only [executeAPIASNAddrQuery]
  have hip : cacheUpdates (apiIPQuery o addr).1 = [] := by
    simp [apiIPQuery_trace, numRateLimitChecks_cacheUpdates]
  have horgtr : cacheUpdates (apiOrgInfoQuery o (apiIPQuery o addr).2.2).1 = [] := by
    simp [apiOrgInfoQuery_trace, numRateLimitChecks_cacheUpdates]
  by_cases hid : ((apiIPQuery o addr).2.2 == "") = true
  · simp [hid, hip]
  · simp only [hid, Bool.false_eq_true, if_false]
    cases horg : (apiOrgInfoQuery o (apiIPQuery o addr).2.2).2 with
    | panicked => simp [horg, hip, horgtr, numRateLimitChecks_cacheUpdates]
    | ok asns =>
      simp only [horg]
      by_cases hasns : asns.isEmpty = true
      · simp [hasns, hip, horgtr, numRateLimitChecks_cacheUpdates]
      · simp only [hasns, Bool.false_eq_true, if_false]
        by_cases hzero : ((candidateLoop o (parseIPv4 addr) asns []).2.1 == 0) = true
        · simp [hzero, hip, horgtr, numRateLimitChecks_cacheUpdates,
            candidateLoop_no_updates]
        · simp only [hzero, Bool.false_eq_true, if_false]
          intro fact hf
          simp only [cacheUpdates_append, hip, horgtr,
            numRateLimitChecks_cacheUpdates, candidateLoop_no_updates,
            cacheUpdates_nil, List.nil_append, List.append_nil,
            List.mem_append, List.not_mem_nil, false_or] at hf
          have hnd : ((some ((candidateLoop o (parseIPv4 addr) asns []).2.2)).getD
              ([] : List String)).Nodup := by
            simpa using candidateLoop_cidrs_nodup o (parseIPv4 addr) asns [] List.nodup_nil
          exact executeAPIASNQuery_invariant o tag
            ((candidateLoop o (parseIPv4 addr) asns []).2.1) addr
            (some ((candidateLoop o (parseIPv4 addr) asns []).2.2)) hnd fact hf

end NetworksDB

/-- **C1 (amended)**: every ASNFact handed to the shared cache by the
NetworksDB data source, on both the API and scrape paths, has a
duplicate-free Netblocks collection, and whenever the Prefix field is
non-empty it is an element of Netblocks. (The Umbrella source violates the
original claim: see the counterexample.) -/
theorem C1_netblocks_set_invariant (o : NetworksDB.Oracle) (hasKey : Bool)
    (req : ASNRequest) :
    ∀ fact ∈ cacheUpdates (NetworksDB.asnRequest o hasKey req).1,
      fact.netblocks.Nodup ∧ (fact.pfx ≠ "" → fact.pfx ∈ fact.netblocks) := by
  unfold NetworksDB.asnRequest
  split
  · simp
  · split
    · split
      · intro fact hf
        simp only [cacheUpdates_append, NetworksDB.numRateLimitChecks_cacheUpdates,
          List.nil_append] at hf
        exact NetworksDB.executeAPIASNAddrQuery_invariant o _ req.address fact hf
      · intro fact hf
        simp only [cacheUpdates_append, NetworksDB.numRateLimitChecks_cacheUpdates,
          List.nil_append] at hf
        exact NetworksDB.executeAPIASNQuery_invariant o _ req.asn "" none
          (by simp) fact hf
    · split
      · intro fact hf
        simp only [cacheUpdates_append, NetworksDB.numRateLimitChecks_cacheUpdates,
          List.nil_append] at hf
        exact NetworksDB.executeASNAddrQuery_invariant o _ req.address fact hf
      · intro fact hf
        simp only [cacheUpdates_append, NetworksDB.numRateLimitChecks_cacheUpdates,
          List.nil_append] at hf
        exact NetworksDB.executeASNQuery_invariant o _ req.asn "" []
          List.nodup_nil fact hf

/-! #### Candidate-ASN selection (C4) -/

namespace NetworksDB

/-- The first candidate AS number, in iteration order, whose queried netblock
set contains the parsed address — the selection rule of
executeAPIASNAddrQuery's loop. -/
def firstContainingASN (o : Oracle) (ip : Option Nat) (asns : List Int) : Option Int :=
  asns.find? (fun a => (findContainingCIDR (apiNetblocksQuery o a).2 ip).isSome)

/-- The candidate loop's selection variable equals the first containing
candidate, or 0 when none contains the address. -/
theorem candidateLoop_asn (o : Oracle) (ip : Option Nat) (asns : List Int) :
    ∀ c0, (candidateLoop o ip asns c0).2.1 = (firstContainingASN o ip asns).getD 0 := by
  induction asns with
  | nil => intro c0; simp [candidateLoop, firstContainingASN]
  | cons a rest ih =>
    intro c0
    simp only [candidateLoop, firstContainingASN, List.find?_cons]
    cases hf : findContainingCIDR (apiNetblocksQuery o a).2 ip with
    | some c => simp [hf]
    | none => simpa [hf, firstContainingASN] using ih _

/-- When a containing candidate exists, the loop exits with that candidate's
netblock set. -/
theorem candidateLoop_cidrs (o : Oracle) (ip : Option Nat) (asns : List Int) (a : Int) :
    ∀ c0, firstContainingASN o ip asns = some a →
      (candidateLoop o ip asns c0).2.2 = (apiNetblocksQuery o a).2 := by
  induction asns with
  | nil => intro c0 h; simp [firstContainingASN] at h
  | cons b rest ih =>
    intro c0 h
    simp only [firstContainingASN, List.find?_cons] at h
    simp only [candidateLoop]
    cases hf : findContainingCIDR (apiNetblocksQuery o b).2 ip with
    | some c =>
      simp only [hf]
      simp [hf] at h
      rw [h]
    | none =>
      simp only [hf]
      simp only [hf, Option.isSome_none, Bool.false_eq_true, if_false] at h
      exact ih _ h

end NetworksDB

/-- **C4 (amended)**: in the API address-first resolution, when the
organization query yields a non-empty candidate list, the candidate selected
by the loop is the first in iteration order whose queried netblock set
contains the parsed original address (first match wins); if no candidate's
set contains the address — or the first matching candidate is AS number 0,
which the code conflates with its failure sentinel — the request ends in
failure with no cache update; for a nonzero selected candidate the run
continues into executeAPIASNQuery with that candidate and its netblock set. -/
theorem C4_candidate_selection (o : NetworksDB.Oracle) (tag addr : String)
    (asns : List Int)
    (hip : ((NetworksDB.apiIPQuery o addr).2.2 == "") = false)
    (horg : (NetworksDB.apiOrgInfoQuery o (NetworksDB.apiIPQuery o addr).2.2).2 =
      .ok asns)
    (hne : asns.isEmpty = false) :
    ((NetworksDB.candidateLoop o (parseIPv4 addr) asns []).2.1 =
      (NetworksDB.firstContainingASN o (parseIPv4 addr) asns).getD 0) ∧
    (NetworksDB.firstContainingASN o (parseIPv4 addr) asns = none →
      cacheUpdates (NetworksDB.executeAPIASNAddrQuery o tag addr).1 = []) ∧
    (NetworksDB.firstContainingASN o (parseIPv4 addr) asns = some 0 →
      cacheUpdates (NetworksDB.executeAPIASNAddrQuery o tag addr).1 = []) ∧
    (∀ a, NetworksDB.firstContainingASN o (parseIPv4 addr) asns = some a → a ≠ 0 →
      (NetworksDB.executeAPIASNAddrQuery o tag addr).1 =
        (NetworksDB.apiIPQuery o addr).1 ++ NetworksDB.numRateLimitChecks 3 ++
          (NetworksDB.apiOrgInfoQuery o (NetworksDB.apiIPQuery o addr).2.2).1 ++
          (NetworksDB.candidateLoop o (parseIPv4 addr) asns []).1 ++
          (NetworksDB.executeAPIASNQuery o tag a addr
            (some (NetworksDB.apiNetblocksQuery o a).2)).1) := by
  have hloop := NetworksDB.candidateLoop_asn o (parseIPv4 addr) asns ([] : List String)
  refine ⟨hloop, ?_, ?_, ?_⟩
  · intro hnone
    simp only [NetworksDB.executeAPIASNAddrQuery, hip, Bool.false_eq_true, if_false,
      horg, hne]
    have hz : ((NetworksDB.candidateLoop o (parseIPv4 addr) asns []).2.1 == 0) = true := by
      rw [hloop, hnone]
      rfl
    simp [hz, NetworksDB.apiIPQuery_trace, NetworksDB.apiOrgInfoQuery_trace,
      NetworksDB.numRateLimitChecks_cacheUpdates, NetworksDB.candidateLoop_no_updates]
  · intro hzero
    simp only [NetworksDB.executeAPIASNAddrQuery, hip, Bool.false_eq_true, if_false,
      horg, hne]
    have hz : ((NetworksDB.candidateLoop o (parseIPv4 addr) asns []).2.1 == 0) = true := by
      rw [hloop, hzero]
      rfl
    simp [hz, NetworksDB.apiIPQuery_trace, NetworksDB.apiOrgInfoQuery_trace,
      NetworksDB.numRateLimitChecks_cacheUpdates, NetworksDB.candidateLoop_no_updates]
  · intro a hfound haz
    simp only [NetworksDB.executeAPIASNAddrQuery, hip, Bool.false_eq_true, if_false,
      horg, hne]
    have hz : ((NetworksDB.candidateLoop o (parseIPv4 addr) asns []).2.1 == 0) = false := by
      rw [hloop, hfound]
      simpa using haz
    have hcid := NetworksDB.candidateLoop_cidrs o (parseIPv4 addr) asns a
      ([] : List String) hfound
    have hasn : (NetworksDB.candidateLoop o (parseIPv4 addr) asns []).2.1 = a := by
      rw [hloop, hfound]
      rfl
    have haz2 : (a == 0) = false := by simpa using haz
    simp only [hz, Bool.false_eq_true, if_false, hcid, hasn, haz2]

/-! #### Marker scan panic (C8) and out-of-scope no-op (C10) -/

/-- The NetworksDB provider for the C8 failing input: the domains-in-network
page contains the "<table class" end marker before the "Domains in network"
start marker, so the Go slice expression page[start:end] has start > end. -/
def c8Oracle : NetworksDB.Oracle :=
  { page := fun _ => .error (), apiIP := fun _ => .error (),
    apiOrg := fun _ => .error (), apiASNInfo := fun _ => .error (),
    apiNetblocks := fun _ => .error (),
    ipLinks := fun _ => .ok ["/ip/1.2.3.4"],
    ipPageCIDR := fun _ => .ok (some "1.2.3.0/24"),
    domainsPage := fun _ => .ok "<table class> junk Domains in network",
    harvest := fun _ => [] }

/-- **C8**: the free-text scan of whoisRequest is bounded by the two markers,
but when the end marker precedes the start marker the unguarded Go slice
page[start:end] panics: on this page content the request's processing
crashes (the model returns the panic outcome), contradicting the claim that
processing completes for every possible page content. -/
theorem C8_marker_scan_panics :
    (NetworksDB.whoisRequest c8Oracle false (fun _ => true) "example.com").2 =
      Outcome.panicked ∧
    NetworksDB.scanDomainsSection (fun _ => [])
      "<table class> junk Domains in network" = Outcome.panicked :=
  ⟨rfl, rfl⟩

/-- **C10**: a WhoisRequest whose domain is rejected by the scope predicate
is a complete no-op for both data sources: the trace is empty — no outbound
call, no rate-limit charge, no cache update, and no emitted event. -/
theorem C10_out_of_scope_noop (fuel : Nat) (hasKeyU hasKeyN : Bool)
    (inScope : String → Bool) (uo : Umbrella.Oracle) (no : NetworksDB.Oracle)
    (domain : String) (h : inScope domain = false) :
    Umbrella.whoisRequest fuel hasKeyU inScope uo domain = some ([], []) ∧
    NetworksDB.whoisRequest no hasKeyN inScope domain = ([], .ok ()) := by
  constructor
  · unfold Umbrella.whoisRequest
    cases hasKeyU with
    | false => simp
    | true => simp [h]
  · unfold NetworksDB.whoisRequest
    simp [h]

/-- The all-failing Umbrella provider. -/
def errUmbrellaOracle : Umbrella.Oracle :=
  { addrToASN := fun _ => .error (), asnToCIDRs := fun _ => .error (),
    reverseWhois := fun _ _ => .error (), whois := fun _ => .error () }

/-- Witness for C10 at a concrete out-of-scope domain. -/
theorem C10_out_of_scope_noop_witness :
    Umbrella.whoisRequest 3 true (fun _ => false) errUmbrellaOracle "x.com" =
      some ([], []) ∧
    NetworksDB.whoisRequest c8Oracle true (fun _ => false) "x.com" = ([], .ok ()) :=
  C10_out_of_scope_noop 3 true true (fun _ => false) errUmbrellaOracle c8Oracle
    "x.com" rfl

/-! #### Rate-limit counting (C5) -/

theorem counts_query_trace (n : Nat) (u : String) :
    countRateChecks (NetworksDB.numRateLimitChecks n ++ [Effect.netCall u]) = n ∧
    countNetCalls (NetworksDB.numRateLimitChecks n ++ [Effect.netCall u]) = 1 := by
  constructor
  · rw [countRateChecks_append, NetworksDB.numRateLimitChecks_countRate]
    simp [countRateChecks, List.countP_cons]
  · rw [countNetCalls_append, NetworksDB.numRateLimitChecks_countNet]
    simp [countNetCalls, List.countP_cons]

theorem countNetCalls_single_update (r : ASNRequest) :
    countNetCalls [Effect.cacheUpdate r] = 0 := rfl

theorem countRateChecks_single_update (r : ASNRequest) :
    countRateChecks [Effect.cacheUpdate r] = 0 := rfl

namespace NetworksDB

theorem apiNetblocksQuery_counts (o : Oracle) (a : Int) :
    countRateChecks (apiNetblocksQuery o a).1 = 3 ∧
      countNetCalls (apiNetblocksQuery o a).1 = 1 := by
  rw [apiNetblocksQuery_trace]
  exact counts_query_trace 3 _

theorem candidateLoop_rate_ge_net (o : Oracle) (ip : Option Nat) (asns : List Int) :
    ∀ c0, countNetCalls (candidateLoop o ip asns c0).1 ≤
      countRateChecks (candidateLoop o ip asns c0).1 := by
  induction asns with
  | nil => intro c0; simp [candidateLoop, countNetCalls, countRateChecks]
  | cons a rest ih =>
    intro c0
    simp only [candidateLoop]
    have hq := apiNetblocksQuery_counts o a
    cases hf : findContainingCIDR (apiNetblocksQuery o a).2 ip with
    | some c =>
      simp only [hf]
      rw [countNetCalls_append, countRateChecks_append,
        numRateLimitChecks_countRate, numRateLimitChecks_countNet]
      omega
    | none =>
      simp only [hf]
      have hr := ih (apiNetblocksQuery o a).2
      rw [countNetCalls_append, countNetCalls_append, countRateChecks_append,
        countRateChecks_append, numRateLimitChecks_countRate,
        numRateLimitChecks_countNet]
      omega

theorem executeAPIASNQuery_rate_ge_net (o : Oracle) (tag : String) (asn : Int)
    (addr : String) (netblocks0 : Option (List String)) :
    countNetCalls (executeAPIASNQuery o tag asn addr netblocks0).1 ≤
      countRateChecks (executeAPIASNQuery o tag asn addr netblocks0).1 := by
  simp only [executeAPIASNQuery]
  generalize hfe : (if (netblocks0.getD []).isEmpty = true then
      ((apiNetblocksQuery o asn).1,
        (apiNetblocksQuery o asn).2.foldl insertStr (netblocks0.getD []))
    else ([], netblocks0.getD [])) = fetched
  have hF : countNetCalls fetched.1 ≤ countRateChecks fetched.1 := by
    rw [← hfe]
    split
    · rw [apiNetblocksQuery_trace]
      rw [countNetCalls_append, countRateChecks_append,
        numRateLimitChecks_countRate, numRateLimitChecks_countNet]
      simp [countRateChecks, countNetCalls, List.countP_cons]
    · simp [countRateChecks, countNetCalls]
  have hinfoc : countRateChecks (apiASNInfoQuery o tag asn).1 = 3 ∧
      countNetCalls (apiASNInfoQuery o tag asn).1 = 1 := by
    rw [apiASNInfoQuery_trace]
    exact counts_query_trace 3 _
  by_cases he : fetched.2.isEmpty = true
  · simpa [he] using hF
  · simp only [he, Bool.false_eq_true, if_false]
    cases hnb : fetched.2 with
    | nil => exact hF
    | cons nb0 nbrest =>
      cases hinfo : (apiASNInfoQuery o tag asn).2 with
      | none =>
        simp only [hinfo]
        rw [countNetCalls_append, countNetCalls_append, countRateChecks_append,
          countRateChecks_append, numRateLimitChecks_countRate,
          numRateLimitChecks_countNet]
        omega
      | some req =>
        simp only [hinfo]
        rw [countNetCalls_append, countNetCalls_append, countNetCalls_append,
          countRateChecks_append, countRateChecks_append, countRateChecks_append,
          numRateLimitChecks_countRate, numRateLimitChecks_countNet]
        simp only [countNetCalls_single_update, countRateChecks_single_update]
        omega

theorem executeAPIASNAddrQuery_rate_ge_net (o : Oracle) (tag : String) (addr : String) :
    countNetCalls (executeAPIASNAddrQuery o tag addr).1 ≤
      countRateChecks (executeAPIASNAddrQuery o tag addr).1 := by
  simp only [executeAPIASNAddrQuery]
  have hip : countRateChecks (apiIPQuery o addr).1 = 3 ∧
      countNetCalls (apiIPQuery o addr).1 = 1 := by
    rw [apiIPQuery_trace]; exact counts_query_trace 3 _
  have horg : countRateChecks (apiOrgInfoQuery o (apiIPQuery o addr).2.2).1 = 3 ∧
      countNetCalls (apiOrgInfoQuery o (apiIPQuery o addr).2.2).1 = 1 := by
    rw [apiOrgInfoQuery_trace]; exact counts_query_trace 3 _
  by_cases hid : ((apiIPQuery o addr).2.2 == "") = true
  · simp only [hid, if_true]
    omega
  · simp only [hid, Bool.false_eq_true, if_false]
    cases ho : (apiOrgInfoQuery o (apiIPQuery o addr).2.2).2 with
    | panicked =>
      simp only [ho]
      rw [countNetCalls_append, countRateChecks_append, countNetCalls_append,
        countRateChecks_append, numRateLimitChecks_countRate, numRateLimitChecks_countNet]
      omega
    | ok asns =>
      simp only [ho]
      by_cases hasns : asns.isEmpty = true
      · simp only [hasns, if_true]
        rw [countNetCalls_append, countRateChecks_append, countNetCalls_append,
          countRateChecks_append, numRateLimitChecks_countRate, numRateLimitChecks_countNet]
        omega
      · simp only [hasns, Bool.false_eq_true, if_false]
        have hloop := candidateLoop_rate_ge_net o (parseIPv4 addr) asns []
        by_cases hz : ((candidateLoop o (parseIPv4 addr) asns []).2.1 == 0) = true
        · simp only [hz, if_true]
          rw [countNetCalls_append, countRateChecks_append, countNetCalls_append,
            countRateChecks_append, countNetCalls_append, countRateChecks_append,
            numRateLimitChecks_countRate, numRateLimitChecks_countNet]
          omega
        · simp only [hz, Bool.false_eq_true, if_false]
          have hexec := executeAPIASNQuery_rate_ge_net o tag
            ((candidateLoop o (parseIPv4 addr) asns []).2.1) addr
            (some ((candidateLoop o (parseIPv4 addr) asns []).2.2))
          rw [countNetCalls_append, countRateChecks_append, countNetCalls_append,
            countRateChecks_append, countNetCalls_append, countRateChecks_append,
            countNetCalls_append, countRateChecks_append,
            numRateLimitChecks_countRate, numRateLimitChecks_countNet]
          omega

theorem executeASNQuery_rate_ge_net (o : Oracle) (tag : String) (asn : Int)
    (addr : String) (netblocks : List String) :
    countNetCalls (executeASNQuery o tag asn addr netblocks).1 ≤
      countRateChecks (executeASNQuery o tag asn addr netblocks).1 := by
  have hq := counts_query_trace 3 (getASNURL asn)
  simp only [executeASNQuery]
  cases h1 : o.page (getASNURL asn) with
  | error e => dsimp only; omega
  | ok pg =>
    simp only [h1]
    cases h2 : pg.asName with
    | none => dsimp only; omega
    | some nameRaw =>
      simp only [h2]
      cases h3 : pg.countryCode with
      | none => dsimp only; omega
      | some ccRaw =>
        simp only [h3]
        rw [countNetCalls_append, countRateChecks_append]
        simp only [countNetCalls_single_update, countRateChecks_single_update]
        omega

theorem executeASNAddrQuery_net_le_rate_add_one (o : Oracle) (tag : String)
    (addr : String) :
    countNetCalls (executeASNAddrQuery o tag addr).1 ≤
      countRateChecks (executeASNAddrQuery o tag addr).1 + 1 := by
  simp only [executeASNAddrQuery]
  cases h1 : o.page (getIPURL addr) with
  | error e => simp [countRateChecks, countNetCalls, List.countP_cons]
  | ok pg =>
    simp only [h1]
    cases h2 : pg.asnLinkHref with
    | none => simp [countRateChecks, countNetCalls, List.countP_cons]
    | some href =>
      simp only [h2]
      cases h3 : o.page (baseURL ++ href) with
      | error e =>
        rw [countNetCalls_append, countRateChecks_append, countNetCalls_append,
          countRateChecks_append, numRateLimitChecks_countRate,
          numRateLimitChecks_countNet]
        simp [countRateChecks, countNetCalls, List.countP_cons]
      | ok pg2 =>
        simp only [h3]
        have hbase : countNetCalls ([Effect.netCall (getIPURL addr)] ++
            numRateLimitChecks 3 ++ [Effect.netCall (baseURL ++ href)]) = 2 ∧
            countRateChecks ([Effect.netCall (getIPURL addr)] ++
              numRateLimitChecks 3 ++ [Effect.netCall (baseURL ++ href)]) = 3 := by
          constructor
          · rw [countNetCalls_append, countNetCalls_append, numRateLimitChecks_countNet]
            simp [countNetCalls, List.countP_cons]
          · rw [countRateChecks_append, countRateChecks_append,
              numRateLimitChecks_countRate]
            simp [countRateChecks, List.countP_cons]
        cases h4 : pg2.asnText with
        | none => dsimp only; omega
        | some t =>
          simp only [h4]
          cases h5 : goAtoi (goTrim t) with
          | none => dsimp only; omega
          | some n =>
            simp only [h5]
            have hrec := executeASNQuery_rate_ge_net o tag n addr
              (pg2.cidrMatches.foldl (fun s m => insertStr s (goTrim m)) [])
            rw [countNetCalls_append, countRateChecks_append]
            omega

end NetworksDB

/-- The all-failing NetworksDB provider (every endpoint errors). -/
def errNetworksDBOracle : NetworksDB.Oracle :=
  { page := fun _ => .error (), apiIP := fun _ => .error (),
    apiOrg := fun _ => .error (), apiASNInfo := fun _ => .error (),
    apiNetblocks := fun _ => .error (), ipLinks := fun _ => .error (),
    ipPageCIDR := fun _ => .error (), domainsPage := fun _ => .error (),
    harvest := fun _ => [] }

/-- **C5 (counterexample)**: a NetworksDB ASN request whose single outbound
call fails consumes 5 rate-limit admissions for 1 outbound call (2 charged
in asnRequest plus 3 in apiIPQuery), not exactly 1. -/
theorem C5_rate_admissions_counterexample :
    countNetCalls (NetworksDB.asnRequest errNetworksDBOracle true
      { address := "1.2.3.4" }).1 = 1 ∧
    countRateChecks (NetworksDB.asnRequest errNetworksDBOracle true
      { address := "1.2.3.4" }).1 = 5 :=
  ⟨rfl, rfl⟩

/-- **C5 (amended)**: for one logical NetworksDB ASN request the actor
consumes at least as many rate-limit admissions as it performs outbound
network calls — every call site charges the limiter (2 or 3 admissions per
site), so admissions exceed the per-call minimum rather than matching it
exactly. -/
theorem C5_rate_admissions (o : NetworksDB.Oracle) (hasKey : Bool) (req : ASNRequest) :
    countNetCalls (NetworksDB.asnRequest o hasKey req).1 ≤
      countRateChecks (NetworksDB.asnRequest o hasKey req).1 := by
  unfold NetworksDB.asnRequest
  split
  · simp [countRateChecks, countNetCalls]
  · have h2r : countRateChecks (NetworksDB.numRateLimitChecks 2) = 2 :=
      NetworksDB.numRateLimitChecks_countRate 2
    have h2n : countNetCalls (NetworksDB.numRateLimitChecks 2) = 0 :=
      NetworksDB.numRateLimitChecks_countNet 2
    split
    · split
      · have := NetworksDB.executeAPIASNAddrQuery_rate_ge_net o "api" req.address
        rw [countNetCalls_append, countRateChecks_append]
        omega
      · have := NetworksDB.executeAPIASNQuery_rate_ge_net o "api" req.asn "" none
        rw [countNetCalls_append, countRateChecks_append]
        omega
    · split
      · have := NetworksDB.executeASNAddrQuery_net_le_rate_add_one o "scrape" req.address
        rw [countNetCalls_append, countRateChecks_append]
        omega
      · have := NetworksDB.executeASNQuery_rate_ge_net o "scrape" req.asn "" []
        rw [countNetCalls_append, countRateChecks_append]
        omega

def c4IPResp : NetworksDB.IPResp :=
  { error := "", total := 1, results := [⟨"org1", "9.9.9.0/24"⟩] }

def c4NetblocksResp : NetworksDB.NetblocksResp :=
  { error := "", total := 1, results := [⟨"1.2.3.0/24"⟩] }

/-- The NetworksDB provider for the C4 counterexample: the organization's
only candidate AS number is 0, and its netblock set contains the queried
address. -/
def c4BadOracle : NetworksDB.Oracle :=
  { page := fun _ => .error (),
    apiIP := fun _ => .ok c4IPResp,
    apiOrg := fun _ => .ok { error := "", total := 1, results := [⟨[0]⟩] },
    apiASNInfo := fun _ => .error (),
    apiNetblocks := fun _ => .ok c4NetblocksResp,
    ipLinks := fun _ => .error (), ipPageCIDR := fun _ => .error (),
    domainsPage := fun _ => .error (), harvest := fun _ => [] }

/-- **C4 (counterexample)**: the first (and only) candidate, AS 0, has a
netblock set containing the address, yet the request ends with no cache
update — the code's failure sentinel `asn == 0` swallows a genuine match,
contradicting "failure only if no candidate's netblock set contains the
address". -/
theorem C4_candidate_selection_counterexample :
    cacheUpdates (NetworksDB.executeAPIASNAddrQuery c4BadOracle "api" "1.2.3.4").1 = [] ∧
    NetworksDB.firstContainingASN c4BadOracle (parseIPv4 "1.2.3.4") [0] = some 0 ∧
    (NetworksDB.apiOrgInfoQuery c4BadOracle
      (NetworksDB.apiIPQuery c4BadOracle "1.2.3.4").2.2).2 = .ok [0] :=
  ⟨rfl, by decide, rfl⟩

/-- The NetworksDB provider for the C4 witness: candidate AS 64500 contains
the address and resolution proceeds. -/
def c4ASInfoResp : NetworksDB.ASInfoResp :=
  { error := "", total := 1,
    results := [⟨64500, "GOO", "Google LLC", "US", "United States"⟩] }

def c4GoodOracle : NetworksDB.Oracle :=
  { page := fun _ => .error (),
    apiIP := fun _ => .ok c4IPResp,
    apiOrg := fun _ => .ok { error := "", total := 1, results := [⟨[64500]⟩] },
    apiASNInfo := fun _ => .ok c4ASInfoResp,
    apiNetblocks := fun _ => .ok c4NetblocksResp,
    ipLinks := fun _ => .error (), ipPageCIDR := fun _ => .error (),
    domainsPage := fun _ => .error (), harvest := fun _ => [] }

/-- Witness for amended C4: with a nonzero matching candidate, the run
continues into executeAPIASNQuery with the selected candidate and its set. -/
theorem C4_candidate_selection_witness :
    (NetworksDB.executeAPIASNAddrQuery c4GoodOracle "api" "1.2.3.4").1 =
      (NetworksDB.apiIPQuery c4GoodOracle "1.2.3.4").1 ++
        NetworksDB.numRateLimitChecks 3 ++
        (NetworksDB.apiOrgInfoQuery c4GoodOracle
          (NetworksDB.apiIPQuery c4GoodOracle "1.2.3.4").2.2).1 ++
        (NetworksDB.candidateLoop c4GoodOracle (parseIPv4 "1.2.3.4") [64500] []).1 ++
        (NetworksDB.executeAPIASNQuery c4GoodOracle "api" 64500 "1.2.3.4"
          (some (NetworksDB.apiNetblocksQuery c4GoodOracle 64500).2)).1 :=
  (C4_candidate_selection c4GoodOracle "api" "1.2.3.4" [64500] (by decide) (by decide)
    (by decide)).2.2.2 64500 (by decide) (by decide)

/-! #### Reverse-WHOIS pagination lemmas -/

namespace Umbrella

theorem foldl_domains_nodup (doms : List RWhoisDomain) :
    ∀ ds : List String, ds.Nodup →
      (doms.foldl (fun ds d => if d.current then insertStr ds d.domain else ds) ds).Nodup := by
  induction doms with
  | nil => exact fun ds h => h
  | cons d rest ih =>
    intro ds h
    simp only [List.foldl_cons]
    apply ih
    split
    · exact insertStr_nodup _ _ h
    · exact h

theorem collectCurrent_nodup (whois : List (String × RWhoisResponse))
    (ds : List String) (h : ds.Nodup) : (collectCurrent whois ds).Nodup := by
  induction whois generalizing ds with
  | nil => exact h
  | cons pg rest ih =>
    simp only [collectCurrent, List.foldl_cons]
    apply ih
    split
    · exact foldl_domains_nodup _ _ h
    · exact h

/-- The pagination loop: one rate-limit check per fetched page, pages at
successive 500-stride offsets starting from the entry offset, and a
duplicate-free result set. -/
theorem queryReverseWhoisAux_spec (o : Oracle) (url : String) :
    ∀ (fuel count : Nat) (whois : List (String × RWhoisResponse))
      (ds : List String) p,
      queryReverseWhoisAux o url fuel count whois ds = some p → ds.Nodup →
        countRateChecks p.1 = countNetCalls p.1 ∧
        netCallURLs p.1 = (List.range (countNetCalls p.1)).map
          (fun i => url ++ "&offset=" ++ toString (count + 500 * i)) ∧
        p.2.Nodup := by
  intro fuel
  induction fuel with
  | zero => intro count whois ds p h; simp [queryReverseWhoisAux] at h
  | succ fuel ih =>
    intro count whois ds p h hnd
    simp only [queryReverseWhoisAux] at h
    cases h1 : o.reverseWhois url count with
    | error e =>
      rw [h1] at h
      simp only [Option.some.injEq] at h
      subst h
      refine ⟨by simp [countRateChecks, countNetCalls, List.countP_cons], ?_, hnd⟩
      simp [netCallURLs, countNetCalls, List.countP_cons, List.range_succ]
    | ok page =>
      rw [h1] at h
      by_cases hm : (mergeResponses whois page).any (fun p => p.2.moreData) = true
      · simp only [hm, if_true] at h
        cases hrec : queryReverseWhoisAux o url fuel (count + 500)
            (mergeResponses whois page) (collectCurrent (mergeResponses whois page) ds) with
        | none => rw [hrec] at h; simp at h
        | some q =>
          rw [hrec] at h
          simp only [Option.some.injEq] at h
          subst h
          obtain ⟨hc, hu, hn⟩ := ih (count + 500) _ _ q hrec
            (collectCurrent_nodup _ _ hnd)
          refine ⟨?_, ?_, hn⟩
          · rw [countRateChecks_append, countNetCalls_append]
            simp only [countRateChecks, countNetCalls, List.countP_cons,
              List.countP_nil] at hc ⊢
            omega
          · have hcn : countNetCalls
                ([Effect.rateCheck, Effect.netCall (url ++ "&offset=" ++ toString count)] ++ q.1) =
                1 + countNetCalls q.1 := by
              rw [countNetCalls_append]
              simp [countNetCalls, List.countP_cons]
            rw [hcn]
            have hurls : netCallURLs
                ([Effect.rateCheck, Effect.netCall (url ++ "&offset=" ++ toString count)] ++ q.1) =
                (url ++ "&offset=" ++ toString count) :: netCallURLs q.1 := by
              simp [netCallURLs]
            rw [hurls, hu]
            rw [show 1 + countNetCalls q.1 = countNetCalls q.1 + 1 from by omega]
            rw [List.range_succ_eq_map]
            simp only [List.map_cons, List.map_map]
            rw [show count + 500 * 0 = count from by omega]
            congr 1
            apply List.map_congr_left
            intro i _
            have h500 : count + 500 + 500 * i = count + 500 * (i + 1) := by ring
            simp [Function.comp, Nat.succ_eq_add_one, h500]
      · simp only [hm, Bool.false_eq_true, if_false, Option.some.injEq] at h
        subst h
        refine ⟨by simp [countRateChecks, countNetCalls, List.countP_cons], ?_,
          collectCurrent_nodup _ _ hnd⟩
        simp [netCallURLs, countNetCalls, List.countP_cons, List.range_succ]

end Umbrella

/-- The Umbrella provider for the C3 counterexample: the page at offset 0
maps to zero total results (and carries a more-data flag under key "a"); the
page at offset 500 uses a different key with the flag absent; the page at
offset 1000 clears both keys. -/
def c3BadOracle : Umbrella.Oracle :=
  { addrToASN := fun _ => .error (), asnToCIDRs := fun _ => .error (),
    whois := fun _ => .error (),
    reverseWhois := fun _ count =>
      if count == 0 then .ok [("a", ⟨0, true, []⟩)]
      else if count == 500 then .ok [("b", ⟨1, false, [⟨"x.com", true⟩]⟩)]
      else .ok [("a", ⟨1, false, []⟩), ("b", ⟨1, false, []⟩)] }

/-- **C3 (counterexample)**: the aggregator issues 3 page requests although
the page at offset 0 maps to zero total results (the claim requires stopping
there) and the page at offset 500 has no more-data flag on any of its
entries (the claim would stop after it): stale entries of the accumulated
response map keep pagination alive, and zero-total pages do not stop it. -/
theorem C3_pagination_counterexample :
    ∃ p, Umbrella.queryReverseWhois 9 c3BadOracle "u?x=1" = some p ∧
      countNetCalls p.1 = 3 ∧
      c3BadOracle.reverseWhois "u?x=1" 0 = .ok [("a", ⟨0, true, []⟩)] ∧
      c3BadOracle.reverseWhois "u?x=1" 500 = .ok [("b", ⟨1, false, [⟨"x.com", true⟩]⟩)] :=
  ⟨_, rfl, by decide, rfl, rfl⟩

/-- The Umbrella provider for the amended C3 scenario: one response key,
more=true at offsets 0 and 500, more=false at 1000. -/
def c3GoodOracle : Umbrella.Oracle :=
  { addrToASN := fun _ => .error (), asnToCIDRs := fun _ => .error (),
    whois := fun _ => .error (),
    reverseWhois := fun _ count =>
      if count == 0 then .ok [("r", ⟨2, true, [⟨"a.com", true⟩, ⟨"b.com", false⟩]⟩)]
      else if count == 500 then .ok [("r", ⟨2, true, [⟨"b.com", true⟩, ⟨"c.com", true⟩]⟩)]
      else .ok [("r", ⟨1, false, [⟨"a.com", true⟩]⟩)] }

/-- **C3 (amended)**: the aggregator fetches pages at successive offsets
0, 500, 1000, … charging exactly one rate-limit check per page fetched, and
continues exactly while the more-data flag is set on some entry of the
accumulated response map (page objects are merged across offsets, with later
pages overwriting matching keys; a page reporting zero total results
contributes no domains but does not stop pagination); the result set is
deduplicated. With a single-key provider answering more=true at offsets 0
and 500 and more=false at 1000, exactly 3 page requests are issued and the
deduplicated union of the current domains of the three pages is returned. -/
theorem C3_pagination (o : Umbrella.Oracle) (url : String) (fuel : Nat)
    (p : List Effect × List String)
    (h : Umbrella.queryReverseWhois fuel o url = some p) :
    (countRateChecks p.1 = countNetCalls p.1 ∧
      netCallURLs p.1 = (List.range (countNetCalls p.1)).map
        (fun i => url ++ "&offset=" ++ toString (500 * i)) ∧
      p.2.Nodup) ∧
    ∃ q, Umbrella.queryReverseWhois 9 c3GoodOracle "u" = some q ∧
      countNetCalls q.1 = 3 ∧ countRateChecks q.1 = 3 ∧
      netCallURLs q.1 = ["u&offset=0", "u&offset=500", "u&offset=1000"] ∧
      q.2 = ["a.com", "b.com", "c.com"] := by
  constructor
  · obtain ⟨hc, hu, hn⟩ := Umbrella.queryReverseWhoisAux_spec o url fuel 0 [] [] p h
      List.nodup_nil
    exact ⟨hc, by simpa using hu, hn⟩
  · exact ⟨_, rfl, by decide, by decide, by decide, by decide⟩

/-- Witness for C3 at the three-page scenario provider. -/
theorem C3_pagination_witness :
    (∃ p, Umbrella.queryReverseWhois 9 c3GoodOracle "u" = some p ∧
      countRateChecks p.1 = countNetCalls p.1 ∧ p.2.Nodup) := by
  obtain ⟨p, hp⟩ : ∃ p, Umbrella.queryReverseWhois 9 c3GoodOracle "u" = some p := ⟨_, rfl⟩
  obtain ⟨⟨hc, _, hn⟩, _⟩ := C3_pagination c3GoodOracle "u" 9 p hp
  exact ⟨p, hp, hc, hn⟩

/-! #### Reverse-WHOIS emission facts (C6) -/

namespace Umbrella

/-- `d` appears as a current domain in an entry with positive totalResults on
some page the provider serves for this URL. -/
def currentInSomeResponse (o : Oracle) (url : String) (d : String) : Prop :=
  ∃ count page key resp, o.reverseWhois url count = .ok page ∧ (key, resp) ∈ page ∧
    resp.totalResults > 0 ∧ ∃ rd ∈ resp.domains, rd.current = true ∧ rd.domain = d

/-- An accumulated map entry that came from some served page. -/
def entryFromResponse (o : Oracle) (url : String)
    (q : String × RWhoisResponse) : Prop :=
  ∃ count page, o.reverseWhois url count = .ok page ∧ q ∈ page

theorem mergeResponses_mem (old new : List (String × RWhoisResponse))
    (q : String × RWhoisResponse) (h : q ∈ mergeResponses old new) :
    q ∈ old ∨ q ∈ new := by
  unfold mergeResponses at h
  rcases List.mem_append.mp h with h1 | h1
  · exact Or.inl (List.mem_of_mem_filter h1)
  · exact Or.inr h1

theorem foldl_domains_mem (doms : List RWhoisDomain) :
    ∀ (ds : List String) x,
      x ∈ doms.foldl (fun ds d => if d.current then insertStr ds d.domain else ds) ds →
        x ∈ ds ∨ ∃ rd ∈ doms, rd.current = true ∧ rd.domain = x := by
  induction doms with
  | nil => exact fun ds x h => Or.inl h
  | cons d rest ih =>
    intro ds x h
    simp only [List.foldl_cons] at h
    rcases ih _ x h with h1 | h1
    · by_cases hc : d.current = true
      · rw [if_pos hc] at h1
        rcases insertStr_mem _ _ _ h1 with h2 | h2
        · exact Or.inl h2
        · exact Or.inr ⟨d, List.mem_cons_self _ _, hc, h2.symm⟩
      · rw [if_neg hc] at h1
        exact Or.inl h1
    · obtain ⟨rd, hrd, hcur, hdom⟩ := h1
      exact Or.inr ⟨rd, List.mem_cons_of_mem _ hrd, hcur, hdom⟩

theorem collectCurrent_mem (whois : List (String × RWhoisResponse)) :
    ∀ (ds : List String) x, x ∈ collectCurrent whois ds →
      x ∈ ds ∨ ∃ q ∈ whois, q.2.totalResults > 0 ∧
        ∃ rd ∈ q.2.domains, rd.current = true ∧ rd.domain = x := by
  induction whois with
  | nil => exact fun ds x h => Or.inl h
  | cons p rest ih =>
    intro ds x h
    simp only [collectCurrent, List.foldl_cons] at h
    rcases ih _ x h with h1 | h1
    · by_cases ht : p.2.totalResults > 0
      · rw [if_pos ht] at h1
        rcases foldl_domains_mem _ _ _ h1 with h2 | h2
        · exact Or.inl h2
        · exact Or.inr ⟨p, List.mem_cons_self _ _, ht, h2⟩
      · rw [if_neg ht] at h1
        exact Or.inl h1
    · obtain ⟨q, hq, hqt, hrd⟩ := h1
      exact Or.inr ⟨q, List.mem_cons_of_mem _ hq, hqt, hrd⟩

/-- Domains collected by the pagination loop either entered with the
accumulator or are current in some served page. -/
theorem queryReverseWhoisAux_mem (o : Oracle) (url : String) :
    ∀ (fuel count : Nat) (whois : List (String × RWhoisResponse))
      (ds : List String) p,
      queryReverseWhoisAux o url fuel count whois ds = some p →
      (∀ q ∈ whois, entryFromResponse o url q) →
      ∀ d ∈ p.2, d ∈ ds ∨ currentInSomeResponse o url d := by
  intro fuel
  induction fuel with
  | zero => intro count whois ds p h; simp [queryReverseWhoisAux] at h
  | succ fuel ih =>
    intro count whois ds p h hq
    simp only [queryReverseWhoisAux] at h
    cases h1 : o.reverseWhois url count with
    | error e =>
      rw [h1] at h
      simp only [Option.some.injEq] at h
      subst h
      exact fun d hd => Or.inl hd
    | ok page =>
      rw [h1] at h
      have hq2 : ∀ q ∈ mergeResponses whois page, entryFromResponse o url q := by
        intro q hmem
        rcases mergeResponses_mem _ _ _ hmem with h2 | h2
        · exact hq q h2
        · exact ⟨count, page, h1, h2⟩
      have hds2 : ∀ d, d ∈ collectCurrent (mergeResponses whois page) ds →
          d ∈ ds ∨ currentInSomeResponse o url d := by
        intro d hd
        rcases collectCurrent_mem _ _ _ hd with h2 | h2
        · exact Or.inl h2
        · obtain ⟨q, hqm, hqt, rd, hrd, hcur, hdom⟩ := h2
          obtain ⟨c2, pg2, hpg2, hqpg⟩ := hq2 q hqm
          exact Or.inr ⟨c2, pg2, q.1, q.2, hpg2, by simpa using hqpg, hqt,
            rd, hrd, hcur, hdom⟩
      by_cases hm : (mergeResponses whois page).any (fun p => p.2.moreData) = true
      · simp only [hm, if_true] at h
        cases hrec : queryReverseWhoisAux o url fuel (count + 500)
            (mergeResponses whois page) (collectCurrent (mergeResponses whois page) ds) with
        | none => rw [hrec] at h; simp at h
        | some q =>
          rw [hrec] at h
          simp only [Option.some.injEq] at h
          subst h
          intro d hd
          rcases ih (count + 500) _ _ q hrec hq2 d hd with h2 | h2
          · exact hds2 d h2
          · exact Or.inr h2
      · simp only [hm, Bool.false_eq_true, if_false, Option.some.injEq] at h
        subst h
        exact fun d hd => hds2 d hd

/-- The pagination loop emits no events. -/
theorem queryReverseWhoisAux_no_emits (o : Oracle) (url : String) :
    ∀ (fuel count : Nat) (whois : List (String × RWhoisResponse))
      (ds : List String) p,
      queryReverseWhoisAux o url fuel count whois ds = some p →
      countEmits p.1 = 0 := by
  intro fuel
  induction fuel with
  | zero => intro count whois ds p h; simp [queryReverseWhoisAux] at h
  | succ fuel ih =>
    intro count whois ds p h
    simp only [queryReverseWhoisAux] at h
    cases h1 : o.reverseWhois url count with
    | error e =>
      rw [h1] at h
      simp only [Option.some.injEq] at h
      subst h
      simp [countEmits, List.countP_cons]
    | ok page =>
      rw [h1] at h
      by_cases hm : (mergeResponses whois page).any (fun p => p.2.moreData) = true
      · simp only [hm, if_true] at h
        cases hrec : queryReverseWhoisAux o url fuel (count + 500)
            (mergeResponses whois page) (collectCurrent (mergeResponses whois page) ds) with
        | none => rw [hrec] at h; simp at h
        | some q =>
          rw [hrec] at h
          simp only [Option.some.injEq] at h
          subst h
          have hq0 := ih (count + 500) _ _ q hrec
          rw [countEmits_append, hq0]
          simp [countEmits, List.countP_cons]
      · simp only [hm, Bool.false_eq_true, if_false, Option.some.injEq] at h
        subst h
        simp [countEmits, List.countP_cons]

theorem queryWhois_trace (o : Oracle) (domain : String) :
    (queryWhois o domain).1 =
      [Effect.rateCheck, Effect.netCall (whoisRecordURL domain)] := by
  unfold queryWhois
  split <;> rfl

/-- The scope re-check fold of whoisRequest: members came from the
accumulator or are out-of-scope members of the queried list. -/
theorem scopeFilter_fold_mem (inScope : String → Bool) (ds : List String) :
    ∀ (acc : List String) x,
      x ∈ ds.foldl (fun acc d => if !(inScope d) then insertStr acc d else acc) acc →
        x ∈ acc ∨ (x ∈ ds ∧ inScope x = false) := by
  induction ds with
  | nil => exact fun acc x h => Or.inl h
  | cons d rest ih =>
    intro acc x h
    simp only [List.foldl_cons] at h
    rcases ih _ x h with h1 | h1
    · by_cases hc : inScope d = false
      · rw [hc] at h1
        simp only [Bool.not_false, if_true] at h1
        rcases insertStr_mem _ _ _ h1 with h2 | h2
        · exact Or.inl h2
        · exact Or.inr ⟨h2 ▸ List.mem_cons_self _ _, h2 ▸ hc⟩
      · have hc2 : inScope d = true := by
          cases hd : inScope d
          · exact absurd hd hc
          · rfl
        rw [hc2] at h1
        simp only [Bool.not_true, Bool.false_eq_true, if_false] at h1
        exact Or.inl h1
    · exact Or.inr ⟨List.mem_cons_of_mem _ h1.1, h1.2⟩

theorem scopeFilter_fold_nodup (inScope : String → Bool) (ds : List String) :
    ∀ acc : List String, acc.Nodup →
      (ds.foldl (fun acc d => if !(inScope d) then insertStr acc d else acc) acc).Nodup := by
  induction ds with
  | nil => exact fun acc h => h
  | cons d rest ih =>
    intro acc h
    simp only [List.foldl_cons]
    apply ih
    split
    · exact insertStr_nodup _ _ h
    · exact h

/-- Facts about one reverse-WHOIS-plus-scope-filter stage of whoisRequest. -/
theorem stage_facts (fuel : Nat) (o : Oracle) (url : String)
    (inScope : String → Bool) (acc : List String) (tr1 : List Effect)
    (dout : List String)
    (hq : (match queryReverseWhois fuel o url with
      | none => none
      | some (tr, ds) =>
        some (tr, ds.foldl (fun acc d => if !(inScope d) then insertStr acc d else acc) acc)) =
      some (tr1, dout))
    (haccN : acc.Nodup) :
    countEmits tr1 = 0 ∧ dout.Nodup ∧
      ∀ x ∈ dout, x ∈ acc ∨ (inScope x = false ∧ currentInSomeResponse o url x) := by
  cases hrw : queryReverseWhois fuel o url with
  | none => rw [hrw] at hq; simp at hq
  | some q =>
    rw [hrw] at hq
    simp only [Option.some.injEq, Prod.mk.injEq] at hq
    obtain ⟨htr0, hds0⟩ := hq
    have htr : tr1 = q.1 := htr0.symm
    have hds : dout = q.2.foldl
        (fun acc d => if !(inScope d) then insertStr acc d else acc) acc := hds0.symm
    refine ⟨htr ▸ queryReverseWhoisAux_no_emits o url fuel 0 [] [] q hrw, ?_, ?_⟩
    · exact hds ▸ scopeFilter_fold_nodup inScope q.2 acc haccN
    · intro x hx
      rw [hds] at hx
      rcases scopeFilter_fold_mem inScope q.2 acc x hx with h1 | h1
      · exact Or.inl h1
      · refine Or.inr ⟨h1.2, ?_⟩
        rcases queryReverseWhoisAux_mem o url fuel 0 [] [] q hrw (by simp) x h1.1 with
          h2 | h2
        · simp at h2
        · exact h2

theorem countEmits_zero_no_emit (l : List Effect) (h : countEmits l = 0)
    (d : String) (nds : List String) (t s : String) :
    Effect.emitWhois d nds t s ∉ l := by
  intro hmem
  rw [countEmits, List.countP_eq_zero] at h
  have := h _ hmem
  simp at this

end Umbrella

/-- **C6**: every domain carried by the reverse-WHOIS result event is marked
current in some provider page and rejected by the scope predicate (only
out-of-scope domains are forwarded); the set is deduplicated; and exactly
one result event — carrying the original domain, the new-domain set, and the
api/Umbrella provenance — is emitted iff that set is non-empty; in
particular, when every retained current domain is already in scope the set
is empty and nothing is emitted. -/
theorem C6_whois_emission (fuel : Nat) (hasKey : Bool) (inScope : String → Bool)
    (o : Umbrella.Oracle) (domain : String) (tr : List Effect)
    (domains : List String)
    (h : Umbrella.whoisRequest fuel hasKey inScope o domain = some (tr, domains)) :
    domains.Nodup ∧
    (∀ d ∈ domains, inScope d = false ∧
      ∃ url, Umbrella.currentInSomeResponse o url d) ∧
    countEmits tr ≤ 1 ∧
    (countEmits tr = 1 ↔ domains ≠ []) ∧
    (∀ dom nds t s, Effect.emitWhois dom nds t s ∈ tr →
      dom = domain ∧ nds = domains ∧ t = "api" ∧ s = "Umbrella") := by
  simp only [Umbrella.whoisRequest] at h
  split at h
  · simp only [Option.some.injEq, Prod.mk.injEq] at h
    obtain ⟨h1, h2⟩ := h
    subst h1
    subst h2
    refine ⟨List.nodup_nil, by simp, by simp [countEmits], ?_, by simp⟩
    simp [countEmits]
  · split at h
    · simp only [Option.some.injEq, Prod.mk.injEq] at h
      obtain ⟨h1, h2⟩ := h
      subst h1
      subst h2
      refine ⟨List.nodup_nil, by simp, by simp [countEmits], ?_, by simp⟩
      simp [countEmits]
    · have htr0e : countEmits (Umbrella.queryWhois o domain).1 = 0 := by
        rw [Umbrella.queryWhois_trace]
        simp [countEmits, List.countP_cons]
      split at h
      · simp only [Option.some.injEq, Prod.mk.injEq] at h
        obtain ⟨h1, h2⟩ := h
        subst h1
        subst h2
        refine ⟨List.nodup_nil, by simp, by omega, ?_, ?_⟩
        · simp [htr0e]
        · intro dom nds t s hmem
          exact absurd hmem
            (Umbrella.countEmits_zero_no_emit _ htr0e dom nds t s)
      · rename_i record hrec
        split at h
        · simp at h
        · rename_i tr1 domains1 heq1
          split at h
          · simp at h
          · rename_i tr2 domains2 heq2
            have facts1 : countEmits tr1 = 0 ∧ domains1.Nodup ∧
                ∀ x ∈ domains1, inScope x = false ∧
                  ∃ url, Umbrella.currentInSomeResponse o url x := by
              split at heq1
              · obtain ⟨he, hn, hm⟩ := Umbrella.stage_facts fuel o
                  (Umbrella.reverseWhoisByEmailURL (Umbrella.collateEmails inScope record))
                  inScope [] tr1 domains1 heq1 List.nodup_nil
                refine ⟨he, hn, fun x hx => ?_⟩
                rcases hm x hx with h2 | h2
                · simp at h2
                · exact ⟨h2.1, _, h2.2⟩
              · simp only [Option.some.injEq, Prod.mk.injEq] at heq1
                obtain ⟨e1, e2⟩ := heq1
                subst e1
                subst e2
                exact ⟨by simp [countEmits], List.nodup_nil, by simp⟩
            have facts2 : countEmits tr2 = 0 ∧ domains2.Nodup ∧
                ∀ x ∈ domains2, x ∈ domains1 ∨ (inScope x = false ∧
                  ∃ url, Umbrella.currentInSomeResponse o url x) := by
              split at heq2
              · obtain ⟨he, hn, hm⟩ := Umbrella.stage_facts fuel o
                  (Umbrella.reverseWhoisByNSURL
                    (record.nameServers.filter (Umbrella.validateScope inScope)))
                  inScope domains1 tr2 domains2 heq2 facts1.2.1
                refine ⟨he, hn, fun x hx => ?_⟩
                rcases hm x hx with h2 | h2
                · exact Or.inl h2
                · exact Or.inr ⟨h2.1, _, h2.2⟩
              · simp only [Option.some.injEq, Prod.mk.injEq] at heq2
                obtain ⟨e1, e2⟩ := heq2
                subst e1
                subst e2
                exact ⟨by simp [countEmits], facts1.2.1, fun x hx => Or.inl hx⟩
            have hmem2 : ∀ x ∈ domains2, inScope x = false ∧
                ∃ url, Umbrella.currentInSomeResponse o url x := by
              intro x hx
              rcases facts2.2.2 x hx with h2 | h2
              · exact facts1.2.2 x h2
              · exact h2
            split at h
            · rename_i hlen
              simp only [Option.some.injEq, Prod.mk.injEq] at h
              obtain ⟨h1, h2⟩ := h
              subst h2
              subst h1
              have hce : countEmits ((Umbrella.queryWhois o domain).1 ++ tr1 ++ tr2 ++
                  [Effect.emitWhois domain domains2 "api" "Umbrella"]) = 1 := by
                rw [countEmits_append, countEmits_append, countEmits_append, htr0e,
                  facts1.1, facts2.1]
                simp [countEmits, List.countP_cons]
              refine ⟨facts2.2.1, hmem2, by omega, ?_, ?_⟩
              · constructor
                · intro _
                  intro hcontra
                  rw [hcontra] at hlen
                  simp at hlen
                · intro _
                  exact hce
              · intro dom nds t s hmem
                rcases List.mem_append.mp hmem with hmem | hmem
                · rcases List.mem_append.mp hmem with hmem | hmem
                  · rcases List.mem_append.mp hmem with hmem | hmem
                    · exact absurd hmem
                        (Umbrella.countEmits_zero_no_emit _ htr0e dom nds t s)
                    · exact absurd hmem
                        (Umbrella.countEmits_zero_no_emit _ facts1.1 dom nds t s)
                  · exact absurd hmem
                      (Umbrella.countEmits_zero_no_emit _ facts2.1 dom nds t s)
                · simp only [List.mem_singleton, Effect.emitWhois.injEq] at hmem
                  exact ⟨hmem.1, hmem.2.1, hmem.2.2.1, hmem.2.2.2⟩
            · rename_i hlen
              simp only [Option.some.injEq, Prod.mk.injEq] at h
              obtain ⟨h1, h2⟩ := h
              subst h2
              subst h1
              have hdnil : domains2 = [] := by
                cases hd : domains2 with
                | nil => rfl
                | cons a l =>
                  rw [hd] at hlen
                  simp at hlen
              have hce : countEmits ((Umbrella.queryWhois o domain).1 ++ tr1 ++ tr2) = 0 := by
                rw [countEmits_append, countEmits_append, htr0e, facts1.1, facts2.1]
              refine ⟨facts2.2.1, hmem2, by omega, ?_, ?_⟩
              · rw [hce, hdnil]
                simp
              · intro dom nds t s hmem
                exact absurd hmem
                  (Umbrella.countEmits_zero_no_emit _ hce dom nds t s)

/-- The WHOIS record for the C6 witness: one in-scope admin contact email. -/
def c6Record : Umbrella.WhoisRecord :=
  { nameServers := [], adminContactEmail := "admin@ex.com",
    billingContactEmail := "", registrantEmail := "", techContactEmail := "",
    zoneContactEmail := "" }

def c6Oracle : Umbrella.Oracle :=
  { addrToASN := fun _ => .error (), asnToCIDRs := fun _ => .error (),
    whois := fun _ => .ok c6Record,
    reverseWhois := fun _ _ => .ok [("r", ⟨1, false, [⟨"new.com", true⟩]⟩)] }

def c6Scope : String → Bool := fun s => s == "ex.com" || s == "admin@ex.com"

/-- Witness for C6 at a concrete run that emits one event. -/
theorem C6_whois_emission_witness :
    ∃ p, Umbrella.whoisRequest 3 true c6Scope c6Oracle "ex.com" = some p ∧
      p.2.Nodup ∧ countEmits p.1 ≤ 1 ∧ (countEmits p.1 = 1 ↔ p.2 ≠ []) := by
  obtain ⟨p, hp⟩ : ∃ p, Umbrella.whoisRequest 3 true c6Scope c6Oracle "ex.com" =
      some p := ⟨_, rfl⟩
  obtain ⟨h1, _, h3, h4, _⟩ := C6_whois_emission 3 true c6Scope c6Oracle "ex.com"
    p.1 p.2 hp
  exact ⟨p, hp, h1, h3, h4⟩

/-- The Umbrella provider used for the C1 counterexample: the ASN's netblock
list repeats the same CIDR, and the code appends netblocks to a plain slice
without deduplication. -/
def c1UmbrellaOracle : Umbrella.Oracle :=
  { addrToASN := fun _ => .ok [⟨true, 3, "desc", 64500, "1.2.3.0/24"⟩],
    asnToCIDRs := fun _ => .ok [⟨"1.2.3.0/24", "X", "US"⟩, ⟨"1.2.3.0/24", "X", "US"⟩],
    reverseWhois := fun _ _ => .error (),
    whois := fun _ => .error () }

/-- **C1 (counterexample)**: the Umbrella data source hands the cache an
ASNFact whose Netblocks collection contains duplicates, refuting the claim
for "either data source". -/
theorem C1_netblocks_counterexample :
    ∃ p, Umbrella.asnRequest 3 true c1UmbrellaOracle { address := "1.2.3.4" } = some p ∧
      ∃ fact ∈ cacheUpdates p.1, ¬ fact.netblocks.Nodup :=
  ⟨_, rfl, by decide⟩

/-- The NetworksDB scrape page used for the C1 witness. -/
def c1ScrapePage : NetworksDB.ScrapePage :=
  { asnLinkHref := none, cidrMatches := ["8.8.8.0/24"], asnText := none,
    asName := some "Google", countryCode := some "US" }

def c1NetworksDBOracle : NetworksDB.Oracle :=
  { page := fun _ => .ok c1ScrapePage,
    apiIP := fun _ => .error (), apiOrg := fun _ => .error (),
    apiASNInfo := fun _ => .error (), apiNetblocks := fun _ => .error (),
    ipLinks := fun _ => .error (), ipPageCIDR := fun _ => .error (),
    domainsPage := fun _ => .error (), harvest := fun _ => [] }

/-- Witness for the amended C1 at a concrete scrape run that caches a fact. -/
theorem C1_netblocks_set_invariant_witness :
    (⟨"", 15169, "8.8.8.0/24", "US", "", "Google, US", ["8.8.8.0/24"], "scrape",
        "NetworksDB"⟩ : ASNRequest).netblocks.Nodup ∧
      ((⟨"", 15169, "8.8.8.0/24", "US", "", "Google, US", ["8.8.8.0/24"], "scrape",
        "NetworksDB"⟩ : ASNRequest).pfx ≠ "" →
        (⟨"", 15169, "8.8.8.0/24", "US", "", "Google, US", ["8.8.8.0/24"], "scrape",
          "NetworksDB"⟩ : ASNRequest).pfx ∈
          (⟨"", 15169, "8.8.8.0/24", "US", "", "Google, US", ["8.8.8.0/24"], "scrape",
            "NetworksDB"⟩ : ASNRequest).netblocks) :=
  C1_netblocks_set_invariant c1NetworksDBOracle false { asn := 15169 } _ (by decide)

/-- The concrete Umbrella provider used for the C9 run: the address maps to
an AS record with the unrecognized registry index 0. -/
def c9UmbrellaOracle : Umbrella.Oracle :=
  { addrToASN := fun _ => .ok [⟨true, 0, "desc", 64500, "1.2.3.0/24"⟩],
    asnToCIDRs := fun _ => .ok [⟨"1.2.3.0/24", "X", "US"⟩],
    reverseWhois := fun _ _ => .error (),
    whois := fun _ => .error () }

/-- **C9 (counterexample)**: an Umbrella address-to-ASN response with an
unrecognized registry index produces an ASNFact whose Registry is "N/A",
which is not in the claim's enumeration ending in "unknown". -/
theorem C9_registry_counterexample :
    ∃ p, Umbrella.asnRequest 3 true c9UmbrellaOracle { address := "1.2.3.4" } = some p ∧
      ∃ fact ∈ cacheUpdates p.1,
        fact.registry ∉ (["AfriNIC", "APNIC", "ARIN", "LACNIC", "RIPE NCC", "unknown"] : List String) :=
  ⟨_, rfl, by decide⟩

/-- **C9 (amended)**: whenever an ASNFact is produced from the Umbrella
address-to-ASN response, its Registry field is one of AfriNIC, APNIC, ARIN,
LACNIC, RIPE NCC, or "N/A" when the provider's registry index is
unrecognized. -/
theorem C9_registry_enumeration :
    (∀ ir : Int, Umbrella.registryName ir ∈ validRegistries ∧
      (ir ∉ ([1, 2, 3, 4, 5] : List Int) → Umbrella.registryName ir = "N/A")) ∧
    ∀ (f : Nat) (hasKey : Bool) (o : Umbrella.Oracle) (req : ASNRequest) p,
      Umbrella.asnRequest f hasKey o req = some p →
        ∀ fact ∈ cacheUpdates p.1, fact.registry ∈ validRegistries := by
  refine ⟨fun ir => ⟨registryName_mem_validRegistries ir, registryName_default ir⟩, ?_⟩
  intro f hasKey o req p h
  unfold Umbrella.asnRequest at h
  split at h
  · simp only [Option.some.injEq] at h
    subst h
    simp [cacheUpdates]
  · split at h
    · simp only [Option.some.injEq] at h
      subst h
      simp [cacheUpdates]
    · split at h
      · exact ((umbrella_registry_invariant f).1 o req p h).1
      · exact ((umbrella_registry_invariant f).2 o req p h).1

/-- Witness for the amended C9 at the concrete run with registry index 0. -/
theorem C9_registry_enumeration_witness :
    ∃ p, Umbrella.asnRequest 3 true c9UmbrellaOracle { address := "1.2.3.4" } = some p ∧
      ∀ fact ∈ cacheUpdates p.1, fact.registry ∈ validRegistries := by
  obtain ⟨p, hp⟩ : ∃ p,
      Umbrella.asnRequest 3 true c9UmbrellaOracle { address := "1.2.3.4" } = some p :=
    ⟨_, rfl⟩
  exact ⟨p, hp, C9_registry_enumeration.2 3 true c9UmbrellaOracle _ p hp⟩

/-- **C7**: for every well-formed CIDR `C` (one accepted by net.ParseCIDR) and
every 32-bit address value `A`, the containment test used during prefix
selection and candidate disambiguation returns true iff `A` lies within `C`'s
network range; and the netblock-iteration skips malformed CIDRs (iterating a
slice equals iterating its well-formed entries), so a malformed entry neither
aborts the query nor panics — the selection function is total. -/
theorem C7_containment_correct (s : String) (c : CIDR) (h : parseCIDR s = some c)
    (ip : Nat) :
    (cidrContains c ip = true ↔
      c.network ≤ ip ∧ ip < c.network + 2 ^ (32 - c.len)) ∧
    ∀ (l : List String) (a : Option Nat),
      findContainingCIDR l a =
        findContainingCIDR (l.filter fun t => (parseCIDR t).isSome) a := by
  constructor
  · obtain ⟨q, hq⟩ := parseCIDR_network_aligned s c h
    have hk : 0 < 2 ^ (32 - c.len) := Nat.pos_pow_of_pos _ (by norm_num)
    unfold cidrContains
    rw [beq_iff_eq, hq]
    exact mask_eq_iff ip q (2 ^ (32 - c.len)) hk
  · exact fun l a => findContainingCIDR_skips_malformed l a

/-- Witness for C7 at the concrete block 8.8.8.0/24 and address 8.8.8.8. -/
theorem C7_containment_correct_witness :
    (cidrContains ⟨134744064, 134744064, 24⟩ 134744072 = true ↔
      134744064 ≤ 134744072 ∧ 134744072 < 134744064 + 2 ^ (32 - 24)) ∧
    ∀ (l : List String) (a : Option Nat),
      findContainingCIDR l a =
        findContainingCIDR (l.filter fun t => (parseCIDR t).isSome) a :=
  C7_containment_correct "8.8.8.0/24" ⟨134744064, 134744064, 24⟩ (by decide) 134744072

end Amass
